import Mathlib

/-!
Verification of the Deposit Lifecycle & Fund Routing Engine
(`rust-backend`: `main.rs`, `eth.rs`, `db.rs`).

The Rust source is shallowly embedded below.  Pure helpers (hex
decoding, keccak256) are translated directly; the stateful parts
(the SQLite deposit store and the Ethereum chain) become explicit
state threaded through executable Lean functions.  External-chain
nondeterminism (balances, RPC failures, transaction reverts) is an
explicit oracle carried inside the `Chain` state, and every chain
interaction is recorded in an effect log so that theorems can speak
about which transactions a run submits.

Rust panics are modelled as a distinguished error constructor
(`HandlerErr.panicked`) that callers propagate and never catch.
-/

/-- Byte strings (each entry is intended to be < 256). -/
abbrev Bytes := List Nat

/-- Deposit lifecycle status. The database column holds one of the
three lowercase strings `pending` / `proxied` / `routed`; every write
in the source uses exactly those literals, so an inductive type is a
faithful model. -/
inductive Status where
  | pending
  | proxied
  | routed
deriving DecidableEq

/-- Numeric rank of a status along the lifecycle
`pending -> proxied -> routed`; used to state monotonicity. -/
def Status.rank : Status → Nat
  | .pending => 0
  | .proxied => 1
  | .routed => 2

/-- A row of the `deposits` table (`db::DepositRow` plus the nullable
`balance` column that `main.rs` reads and writes).  `balance` holds
the 32-byte big-endian value written by the reconciler, or `none`
(SQL NULL).  Timestamps are omitted: no modelled operation reads
them (`ORDER BY created_at DESC` is modelled as reverse insertion
order, see `selectEligible`). -/
structure Deposit where
  id : Nat
  user : Bytes
  salt : Bytes
  address : Bytes
  balance : Option Bytes
  status : Status
deriving DecidableEq

/-- The deposit store: the table rows in insertion order plus the
autoincrement counter backing `RETURNING id`. -/
structure Store where
  deposits : List Deposit
  nextId : Nat
deriving DecidableEq

/-- The external chain, as the oracle the core observes through RPC:
current balances, deployed-code presence, and the outcome of the
transactions the core may submit.  `readFails` models RPC transport
failure of `get_balance`; `transferReverts` the on-chain outcome of
`transferFunds` from a given proxy; `deployReverts` the outcome of
the next `deployMultiple` transaction; `txHashOf` the hash the chain
assigns to a confirmed transfer from a given proxy. -/
structure Chain where
  balance : Bytes → Nat
  code : Bytes → Bool
  readFails : Bytes → Bool
  transferReverts : Bytes → Bool
  txHashOf : Bytes → Nat
  deployReverts : Bool

/-- Process configuration (`Config` in `main.rs`): the deployer
contract address, the address of the signer derived from
`PRIVATE_KEY` (the secp256k1 key-to-address derivation lives in the
`alloy` library, outside this repository, so the signer address is
carried directly), and the treasury address. -/
structure Config where
  deployer : Bytes
  caller : Bytes
  treasury : Bytes

/-- Combined system state. -/
structure Sys where
  store : Store
  chain : Chain

/-- One chain interaction.  `deployTx` and `transferTx` are submitted
transactions; the others are read-only RPC calls. -/
inductive Eff where
  | getBalance (a : Bytes)
  | getCode (a : Bytes)
  | predictCall (salts : List Bytes)
  | deployTx (salts : List Bytes)
  | transferTx (a : Bytes)
deriving DecidableEq

/-- Whether an effect is a submitted on-chain transaction. -/
def Eff.isTx : Eff → Bool
  | .deployTx _ => true
  | .transferTx _ => true
  | _ => false

/-- Errors surfaced by the chain layer (`eth.rs`): RPC transport
failure, or a submitted transaction that reverted. -/
inductive RunErr where
  | rpcFailure
  | txReverted
deriving DecidableEq

/-- Handler-level outcomes (`AppError` in `main.rs`), plus a
distinguished `panicked` constructor modelling a Rust panic: it is
only ever propagated, never caught. -/
inductive HandlerErr where
  | panicked (msg : String)
  | badRequest (msg : String)
  | internal (msg : String)
  | chainErr (e : RunErr)
deriving DecidableEq

/-! Section: keccak256 as computed by `main.rs::keccak256` via tiny_keccak -/

/-- Mask of a 64-bit lane. -/
def mask64 : Nat := 2 ^ 64 - 1

/-- Rotate a 64-bit lane left by `n` (0 ≤ n < 64). -/
def rotl64 (x n : Nat) : Nat :=
  ((x <<< n) ||| (x >>> (64 - n))) &&& mask64

/-- Flattened 5×5 index into the Keccak state. -/
def kidx (x y : Nat) : Nat := x + 5 * y

/-- Keccak ρ rotation offsets, flattened by `kidx`, generated from
the schedule of the reference specification: starting at lane
`(1, 0)`, step `t` assigns offset `(t+1)(t+2)/2 mod 64` and moves to
`(y, (2x+3y) mod 5)`; lane `(0, 0)` keeps offset `0`. -/
def rhoOffsets : List Nat :=
  ((List.range 24).foldl
    (fun st t =>
      ((st.1.2, (2 * st.1.1 + 3 * st.1.2) % 5),
       st.2.set (kidx st.1.1 st.1.2) (((t + 1) * (t + 2) / 2) % 64)))
    ((1, 0), List.replicate 25 0)).2

/-- Bit `t` of the Keccak round-constant LFSR
(`x^8 + x^6 + x^5 + x^4 + 1` over GF(2), seeded with 1). -/
def keccakLFSRBit (t : Nat) : Nat :=
  ((List.range t).foldl
    (fun r _ => ((r <<< 1) ^^^ (((r >>> 7) &&& 1) * 0x71)) &&& 255) 1) &&& 1

/-- Keccak round constant of round `i`: LFSR bits placed at the bit
positions `2^j - 1` for `j = 0..6`. -/
def keccakRCval (i : Nat) : Nat :=
  (List.range 7).foldl
    (fun acc j => acc ||| (keccakLFSRBit (7 * i + j) <<< (2 ^ j - 1))) 0

/-- Keccak round constants of the 24 rounds. -/
def keccakRC : List Nat :=
  (List.range 24).map keccakRCval

/-- Theta step. -/
def keccakTheta (A : List Nat) : List Nat :=
  let C := (List.range 5).map fun x =>
    (A.getD (kidx x 0) 0) ^^^ (A.getD (kidx x 1) 0) ^^^ (A.getD (kidx x 2) 0) ^^^
    (A.getD (kidx x 3) 0) ^^^ (A.getD (kidx x 4) 0)
  (List.range 25).map fun i =>
    let x := i % 5
    let D := (C.getD ((x + 4) % 5) 0) ^^^ rotl64 (C.getD ((x + 1) % 5) 0) 1
    (A.getD i 0) ^^^ D

/-- Combined ρ and π steps: output lane `(X, Y)` is the source lane
`(x, y) = ((X + 3Y) mod 5, X)` rotated by its ρ offset. -/
def keccakRhoPi (A : List Nat) : List Nat :=
  (List.range 25).map fun j =>
    let X := j % 5
    let Y := j / 5
    let x := (X + 3 * Y) % 5
    let y := X
    rotl64 (A.getD (kidx x y) 0) (rhoOffsets.getD (kidx x y) 0)

/-- Chi step. -/
def keccakChi (B : List Nat) : List Nat :=
  (List.range 25).map fun j =>
    let X := j % 5
    let Y := j / 5
    (B.getD j 0) ^^^
      (((B.getD (kidx ((X + 1) % 5) Y) 0) ^^^ mask64) &&& (B.getD (kidx ((X + 2) % 5) Y) 0))

/-- Iota step. -/
def keccakIota (rc : Nat) (A : List Nat) : List Nat :=
  match A with
  | [] => []
  | a0 :: rest => (a0 ^^^ rc) :: rest

/-- The Keccak-f[1600] permutation. -/
def keccakF (A : List Nat) : List Nat :=
  keccakRC.foldl (fun st rc => keccakIota rc (keccakChi (keccakRhoPi (keccakTheta st)))) A

/-- Little-endian bytes of index `8*i .. 8*i+7` as a 64-bit lane. -/
def bytesToLane (b : Bytes) : Nat :=
  b.reverse.foldl (fun acc x => acc * 256 + x) 0

/-- XOR a 136-byte rate block into the first 17 lanes. -/
def xorBlock (A : List Nat) (block : Bytes) : List Nat :=
  (List.range 25).map fun i =>
    (A.getD i 0) ^^^ (if i < 17 then bytesToLane ((block.drop (8 * i)).take 8) else 0)

/-- Absorb the (already padded) message 136 bytes at a time. -/
def absorbBlocks (A : List Nat) (bs : Bytes) : List Nat :=
  if h : bs = [] then A
  else absorbBlocks (keccakF (xorBlock A (bs.take 136))) (bs.drop 136)
termination_by bs.length
decreasing_by
  simp only [List.length_drop]
  exact Nat.sub_lt (List.length_pos.mpr h) (by norm_num)

/-- Legacy Keccak multi-rate padding (delimiter `0x01`), rate 136. -/
def keccakPad (n : Nat) : Bytes :=
  let m := n % 136
  if m = 135 then [0x81]
  else 0x01 :: List.replicate (136 - m - 2) 0 ++ [0x80]

/-- The 8 little-endian bytes of a 64-bit lane. -/
def laneBytes (v : Nat) : Bytes :=
  [v &&& 255, (v >>> 8) &&& 255, (v >>> 16) &&& 255, (v >>> 24) &&& 255,
   (v >>> 32) &&& 255, (v >>> 40) &&& 255, (v >>> 48) &&& 255, (v >>> 56) &&& 255]

/-- keccak256 over a byte string, as computed by `main.rs::keccak256`
(tiny_keccak `Keccak::v256`, i.e. legacy Keccak-256 with `0x01`
padding): 32-byte digest. -/
def keccak256 (input : Bytes) : Bytes :=
  let A := absorbBlocks (List.replicate 25 0) (input ++ keccakPad input.length)
  laneBytes (A.getD 0 0) ++ laneBytes (A.getD 1 0) ++
    laneBytes (A.getD 2 0) ++ laneBytes (A.getD 3 0)

/-! Section: Hex decoding and validation (`main.rs::decode_hex` / `validate_hex`)

`decode_hex` iterates `(0..s.len()).step_by(2)` and slices
`&s[i..i+2]`: on an odd-length (ASCII) string the final slice is out
of bounds and Rust panics.  Strings are modelled as `List Char`;
Rust's byte indexing coincides with character indexing on ASCII
input (a non-ASCII byte sequence can additionally panic on a UTF-8
char boundary, which this model does not need). -/

/-- Outcomes of `decode_hex`: a parse error (wrapped into a 400 by
`validate_hex`) or an out-of-bounds slice panic. -/
inductive DecErr where
  | sliceOOB
  | badDigit
deriving DecidableEq

/-- Rust `char::is_ascii_hexdigit`-style check used by
`u8::from_str_radix(_, 16)`. -/
def isHexDigitCh (c : Char) : Bool :=
  (('0' ≤ c) && (c ≤ '9')) || (('a' ≤ c) && (c ≤ 'f')) || (('A' ≤ c) && (c ≤ 'F'))

/-- Value of a hex digit. -/
def hexVal (c : Char) : Nat :=
  if ('0' ≤ c) && (c ≤ '9') then c.toNat - '0'.toNat
  else if ('a' ≤ c) && (c ≤ 'f') then c.toNat - 'a'.toNat + 10
  else c.toNat - 'A'.toNat + 10

/-- Behaviour of `u8::from_str_radix(s, 16)` on a two-character slice.  Rust's
`from_str_radix` also accepts a leading `+` followed by a single
digit. -/
def parsePairU8 (c₁ c₂ : Char) : Option Nat :=
  if c₁ = '+' then (if isHexDigitCh c₂ then some (hexVal c₂) else none)
  else if isHexDigitCh c₁ && isHexDigitCh c₂ then some (16 * hexVal c₁ + hexVal c₂)
  else none

/-- Hex-tag stripping, `strip_prefix("0x")`. -/
def stripHexTag : List Char → List Char
  | '0' :: 'x' :: rest => rest
  | s => s

/-- The pair loop of `decode_hex`.  A single trailing character means
the slice `&s[i..i+2]` is out of bounds: panic. -/
def decodeHexLoop : List Char → Except DecErr Bytes
  | [] => .ok []
  | [_] => .error .sliceOOB
  | c₁ :: c₂ :: rest =>
    match parsePairU8 c₁ c₂ with
    | none => .error .badDigit
    | some b => (decodeHexLoop rest).map (b :: ·)

/-- Embeds `main.rs::decode_hex`. -/
def decodeHex (s : List Char) : Except DecErr Bytes :=
  decodeHexLoop (stripHexTag s)

/-- Embeds `main.rs::validate_hex`: decode, then check the byte width.
Parse errors become 400 `bad_request` responses; the out-of-bounds
panic propagates as a panic. -/
def validateHex (s : List Char) (expectedLen : Nat) (name : String) : Except HandlerErr Bytes :=
  match decodeHex s with
  | .error .sliceOOB => .error (.panicked "byte index out of bounds")
  | .error .badDigit => .error (.badRequest ("bad " ++ name ++ " hex"))
  | .ok bytes =>
    if bytes.length = expectedLen then .ok bytes
    else .error (.badRequest (name ++ " must have expected length"))

/-- Big-endian 32-byte encoding of a balance
(`U256::to_be_bytes` in `eth::get_balance`). -/
def beBytes32 (n : Nat) : Bytes :=
  (List.range 32).map fun i => (n >>> (8 * (31 - i))) &&& 255

/-! Section: Chain client (`eth.rs`) -/

/-- Modelled from the spec: the deployer contract's
`calculateDestinationAddresses` (the CREATE2-style prediction) is a
Solidity contract that is not part of this repository's sources.
Per the spec it is a deterministic pure function of the deployer
contract, the calling identity and the salt, returning one 20-byte
address per salt.  It is modelled as the low 20 bytes of a keccak256
digest of those three inputs. -/
def predictAddress (deployer caller : Bytes) (salt : Bytes) : Bytes :=
  (keccak256 (deployer ++ caller ++ salt)).drop 12

/-- Embeds `eth::predict_proxy_addresses`: a read-only `eth_call` simulation
returning one predicted address per salt. -/
def predictProxyAddresses (deployer caller : Bytes) (salts : List Bytes) : List Bytes :=
  salts.map (predictAddress deployer caller)

/-- Embeds `eth::get_balance`: RPC balance read, subject to transport
failure. -/
def getBalance (c : Chain) (a : Bytes) : Except RunErr Nat :=
  if c.readFails a then .error .rpcFailure else .ok (c.balance a)

/-- Record code as deployed at the given addresses. -/
def markDeployed (c : Chain) (addrs : List Bytes) : Chain :=
  { c with code := fun a => if a ∈ addrs then true else c.code a }

/-- Embeds `eth::deploy_proxies`: predict the destination addresses, filter
out salts whose address already has deployed code, simulate
`deployMultiple` to obtain the resulting addresses, then submit the
real transaction and wait for the receipt.  The submission is
unconditional — the source never checks whether the filtered salt
list is empty — and the run fails if the receipt reports a revert.
(RPC transport failures of the intermediate reads are not modelled;
the oracle models failure where the claims need it.)
The salts of the `non_proxies` list — those whose predicted address
carries no deployed code yet — are split off as `nonDeployedSalts`. -/
def nonDeployedSalts (c : Chain) (cfg : Config) (salts : List Bytes) : List Bytes :=
  (((predictProxyAddresses cfg.deployer cfg.caller salts).zip salts).filter
    (fun p => !c.code p.1)).map (·.2)

def deployProxies (c : Chain) (cfg : Config) (salts : List Bytes) :
    Except RunErr (List Bytes) × Chain × List Eff :=
  let nonProxies := nonDeployedSalts c cfg salts
  let addrs := predictProxyAddresses cfg.deployer cfg.caller nonProxies
  let effs := Eff.predictCall salts ::
    (predictProxyAddresses cfg.deployer cfg.caller salts).map Eff.getCode ++
    [Eff.predictCall nonProxies, Eff.deployTx nonProxies]
  if c.deployReverts then (.error .txReverted, c, effs)
  else (.ok addrs, markDeployed c addrs, effs)

/-- Embeds `eth::route_funds`: read the proxy's current balance; if zero,
return the zero-valued sentinel hash without submitting anything;
otherwise submit `transferFunds(balance, [], [], treasury)` and wait
for the receipt, failing on revert.  A confirmed transfer moves the
whole balance out of the proxy. -/
def routeFunds (c : Chain) (proxy treasury : Bytes) :
    Except RunErr Nat × Chain × List Eff :=
  if c.readFails proxy then (.error .rpcFailure, c, [.getBalance proxy])
  else if c.balance proxy = 0 then (.ok 0, c, [.getBalance proxy])
  else if c.transferReverts proxy then
    (.error .txReverted, c, [.getBalance proxy, .transferTx proxy])
  else
    (.ok (c.txHashOf proxy),
     { c with balance := fun a => if a = proxy then 0 else c.balance a },
     [.getBalance proxy, .transferTx proxy])

/-! Section: Deposit store (`db.rs`)

The `db.rs` checked into the repository predates `main.rs` (its
`DepositFilters.status` is a single optional string and its
`DepositRow` lacks `balance`, while `main.rs` passes a list of
statuses and reads `balance`).  The query below therefore follows
`main.rs`'s call sites and the spec's store contract
(`query(filters: {user?, salt?, address?, status_set?, limit, ...})`):
rows whose status is in the given set, optionally restricted to one
address, newest first, truncated when `limit > 0`. -/

/-- Row filter used by the orchestrator and the reconciler. -/
def eligibleRow (scope : Option Bytes) (d : Deposit) : Bool :=
  (d.status == .pending || d.status == .proxied) &&
    (match scope with
     | some a => d.address == a
     | none => true)

/-- The store query as issued by `execute_routing` / `poll_balances`:
status in `{pending, proxied}`, optional address filter, `ORDER BY
created_at DESC` (newest first — rows are kept in insertion order,
so this is a reverse), and `LIMIT 1` exactly when scoped to one
address. -/
def selectEligible (store : Store) (scope : Option Bytes) : List Deposit :=
  let rows := (store.deposits.filter (eligibleRow scope)).reverse
  match scope with
  | some _ => rows.take 1
  | none => rows

/-- Status counts (`SELECT status, COUNT(*) ... GROUP BY status`).
The SQL result is a map from the statuses present to their counts;
absent statuses and explicit zero entries are identified. -/
structure Counts where
  pending : Nat
  proxied : Nat
  routed : Nat
deriving DecidableEq

/-- Count rows by status over the whole table. -/
def countByStatus (rows : List Deposit) : Counts :=
  { pending := rows.countP (fun d => d.status == .pending)
    proxied := rows.countP (fun d => d.status == .proxied)
    routed := rows.countP (fun d => d.status == .routed) }

/-- Batch update `UPDATE deposits SET status = 'proxied' WHERE id = ?`, executed
for every id in the batch inside one transaction. -/
def markProxied (store : Store) (ids : List Nat) : Store :=
  { store with deposits := store.deposits.map fun d =>
      if d.id ∈ ids then { d with status := .proxied } else d }

/-- Single-row update `UPDATE deposits SET status = 'routed', balance = NULL WHERE id = ?`. -/
def markRouted (store : Store) (i : Nat) : Store :=
  { store with deposits := store.deposits.map fun d =>
      if d.id = i then { d with status := .routed, balance := none } else d }

/-- Balance write `UPDATE deposits SET balance = ? WHERE id = ?`. -/
def updateBalance (store : Store) (i : Nat) (b : Bytes) : Store :=
  { store with deposits := store.deposits.map fun d =>
      if d.id = i then { d with balance := some b } else d }

/-- Embeds `db::insert_deposit`: plain `INSERT ... RETURNING id`, status
`pending`, `balance` NULL.  Modelled from the spec for the parts the
schema (not in `src/`) decides: `id` is store-generated and
monotonic, and no uniqueness constraint restricts `user`, `salt` or
`address` (the spec's data model states none). -/
def dbInsertDeposit (store : Store) (user salt address : Bytes) : Nat × Store :=
  (store.nextId,
   { deposits := store.deposits ++
       [{ id := store.nextId, user := user, salt := salt, address := address,
          balance := none, status := .pending }]
     nextId := store.nextId + 1 })

/-! Section: Routing orchestrator (`main.rs::execute_routing`) -/

/-- The result body (`RouteResults`). -/
structure RouteResults where
  counts : Counts
  routed : Nat
  txs : List Nat
deriving DecidableEq

/-- Default result `RouteResults::default()`: empty counts, zero routed, no txs. -/
def RouteResults.empty : RouteResults :=
  { counts := ⟨0, 0, 0⟩, routed := 0, txs := [] }

/-- One sweep unit of work (the async block built per deposit): call
`route_funds` on the deposit's proxy; on a confirmed non-zero hash,
commit that deposit's own `routed` update. -/
def sweepOne (cfg : Config) (d : Deposit) (store : Store) (c : Chain) :
    Except RunErr Nat × Store × Chain × List Eff :=
  let o := routeFunds c d.address cfg.treasury
  match o.1 with
  | .error e => (.error e, store, o.2.1, o.2.2)
  | .ok h =>
    if h ≠ 0 then (.ok h, markRouted store d.id, o.2.1, o.2.2)
    else (.ok h, store, o.2.1, o.2.2)

/-- The sweep fan-out.  The source spawns one future per deposit and
joins them; the model runs them in list order, each committing its
own store update — a sequentialisation of the fan-out in which no
sibling is cancelled. -/
def sweepAll (cfg : Config) (ds : List Deposit) (store : Store) (c : Chain) :
    List (Except RunErr Nat) × Store × Chain × List Eff :=
  match ds with
  | [] => ([], store, c, [])
  | d :: rest =>
    let o₁ := sweepOne cfg d store c
    let o₂ := sweepAll cfg rest o₁.2.1 o₁.2.2.1
    (o₁.1 :: o₂.1, o₂.2.1, o₂.2.2.1, o₁.2.2.2 ++ o₂.2.2.2)

/-- Join semantics of `futures::future::try_join_all`: the join fails with the first
error among the unit results. -/
def firstErr (rs : List (Except RunErr Nat)) : Option RunErr :=
  rs.findSome? fun r => match r with | .error e => some e | .ok _ => none

/-- Successful hashes of the join, with the zero sentinels filtered
out (`filter(|tx| !tx.is_zero())`). -/
def okTxs (rs : List (Except RunErr Nat)) : List Nat :=
  (rs.filterMap fun r => match r with | .ok h => some h | .error _ => none).filter (· ≠ 0)

/-- Embeds `main.rs::execute_routing`, after input validation: select the
eligible deposits (empty selection is an empty success); snapshot
the status counts; deploy proxies for the still-`pending` selected
salts (a failure aborts the run before any status write); mark every
selected deposit `proxied` in one transaction; sweep every selected
deposit, each sweep committing its own `routed` update; join with
`try_join_all`, which turns any single sweep failure into a failure
of the whole run. -/
def executeRouting (cfg : Config) (s : Sys) (scope : Option Bytes) :
    Except RunErr RouteResults × Sys × List Eff :=
  let selected := selectEligible s.store scope
  if selected.isEmpty then (.ok RouteResults.empty, s, [])
  else
    let counts := countByStatus s.store.deposits
    let salts := (selected.filter fun d => !(d.status == .proxied)).map (·.salt)
    let dep := deployProxies s.chain cfg salts
    match dep.1 with
    | .error e => (.error e, { s with chain := dep.2.1 }, dep.2.2)
    | .ok _ =>
      let store₁ := markProxied s.store (selected.map (·.id))
      let sw := sweepAll cfg selected store₁ dep.2.1
      match firstErr sw.1 with
      | some e => (.error e, ⟨sw.2.1, sw.2.2.1⟩, dep.2.2 ++ sw.2.2.2)
      | none =>
        let txs := okTxs sw.1
        (.ok { counts := counts, routed := txs.length, txs := txs },
         ⟨sw.2.1, sw.2.2.1⟩, dep.2.2 ++ sw.2.2.2)

/-- The `/route` handler boundary: an absent or unparsable body means
an unscoped run; a present address is validated (20 bytes) before
anything else runs. -/
def executeRoutingHandler (cfg : Config) (s : Sys) (addrInput : Option (List Char)) :
    Except HandlerErr RouteResults × Sys × List Eff :=
  match addrInput with
  | none =>
    match executeRouting cfg s none with
    | (.error e, s', effs) => (.error (.chainErr e), s', effs)
    | (.ok r, s', effs) => (.ok r, s', effs)
  | some a =>
    match validateHex a 20 "address" with
    | .error e => (.error e, s, [])
    | .ok addr =>
      match executeRouting cfg s (some addr) with
      | (.error e, s', effs) => (.error (.chainErr e), s', effs)
      | (.ok r, s', effs) => (.ok r, s', effs)

/-! Section: Deposit creation (`main.rs::insert_deposit`) -/

/-- Embeds `main.rs::insert_deposit`: validate the user id (20 bytes hex),
derive the salt as `keccak256(user)`, predict the proxy address via
the chain's read-only prediction with the signing identity as
caller, and insert the `pending` row.  The prediction is the only
chain interaction and it is a read. -/
def insertDeposit (cfg : Config) (s : Sys) (userInput : List Char) :
    Except HandlerErr Nat × Sys × List Eff :=
  match validateHex userInput 20 "user" with
  | .error e => (.error e, s, [])
  | .ok user =>
    let salt := keccak256 user
    let proxies := predictProxyAddresses cfg.deployer cfg.caller [salt]
    match proxies.head? with
    | none => (.error (.internal "predicting proxy addresses failed"), s, [.predictCall [salt]])
    | some address =>
      let o := dbInsertDeposit s.store user salt address
      (.ok o.1, { s with store := o.2 }, [.predictCall [salt]])

/-! Section: Balance reconciler (`main.rs::poll_balances`) -/

/-- The reconciler's per-deposit step, folded over the batch: read
the balance from the chain; on success persist it (as 32-byte
big-endian) onto that deposit's row; on failure leave the row
alone.  Only the `balance` column is ever written. -/
def pollAll (c : Chain) (ds : List Deposit) (store : Store) : Store × List Eff :=
  match ds with
  | [] => (store, [])
  | d :: rest =>
    let store₁ :=
      if c.readFails d.address then store
      else updateBalance store d.id (beBytes32 (c.balance d.address))
    let o := pollAll c rest store₁
    (o.1, Eff.getBalance d.address :: o.2)

/-- Embeds `main.rs::poll_balances`: select all `{pending, proxied}`
deposits and refresh each one's cached balance inside one
transaction; a failed read leaves that row stale without aborting
the rest. -/
def pollBalances (s : Sys) : Sys × List Eff :=
  let ds := selectEligible s.store none
  let o := pollAll s.chain ds s.store
  ({ s with store := o.1 }, o.2)

/-! Section: The operations of the core, for stating cross-cutting invariants -/

/-- An operation of the core: an orchestration run (optionally
scoped), a reconciler pass, or a deposit creation. -/
inductive Op where
  | route (scope : Option Bytes)
  | poll
  | create (input : List Char)

/-- State reached after one operation. -/
def applyOp (cfg : Config) (s : Sys) : Op → Sys
  | .route scope => (executeRouting cfg s scope).2.1
  | .poll => (pollBalances s).1
  | .create input => (insertDeposit cfg s input).2.1

/-- Pointwise row evolution: the new table is at least as long, and
every old row's position still carries the same deposit id with a
status at least as far along the lifecycle. -/
def statusMonoRows (old new : List Deposit) : Prop :=
  old.length ≤ new.length ∧
  ∀ j (h₁ : j < old.length) (h₂ : j < new.length),
    (old.get ⟨j, h₁⟩).id = (new.get ⟨j, h₂⟩).id ∧
    (old.get ⟨j, h₁⟩).status.rank ≤ (new.get ⟨j, h₂⟩).status.rank

/-! Section: Generic row-evolution machinery -/

/-- Pointwise relation between two tables of equal length. -/
def rowsRel (R : Deposit → Deposit → Prop) (old new : List Deposit) : Prop :=
  old.length = new.length ∧
  ∀ j (h₁ : j < old.length) (h₂ : j < new.length),
    R (old.get ⟨j, h₁⟩) (new.get ⟨j, h₂⟩)

lemma rowsRel_refl {R : Deposit → Deposit → Prop} (h : ∀ d, R d d) (l : List Deposit) :
    rowsRel R l l :=
  ⟨rfl, fun _ _ _ => h _⟩

lemma rowsRel_trans {R : Deposit → Deposit → Prop}
    (htr : ∀ a b c, R a b → R b c → R a c)
    {l₁ l₂ l₃ : List Deposit} (h₁ : rowsRel R l₁ l₂) (h₂ : rowsRel R l₂ l₃) :
    rowsRel R l₁ l₃ := by
  refine ⟨h₁.1.trans h₂.1, fun j hj₁ hj₃ => ?_⟩
  have hj₂ : j < l₂.length := h₁.1 ▸ hj₁
  exact htr _ _ _ (h₁.2 j hj₁ hj₂) (h₂.2 j hj₂ hj₃)

lemma rowsRel_map {R : Deposit → Deposit → Prop} {l : List Deposit} {f : Deposit → Deposit}
    (h : ∀ d ∈ l, R d (f d)) : rowsRel R l (l.map f) := by
  refine ⟨(List.length_map _ _).symm, fun j hj₁ hj₂ => ?_⟩
  simp only [List.get_eq_getElem, List.getElem_map]
  exact h _ (List.getElem_mem hj₁)

/-- Row evolution under the sweep phase: identity, or the deposit's
own `routed`-with-cleared-balance update; the identifying fields
never change. -/
def rowSweep (o n : Deposit) : Prop :=
  n.id = o.id ∧ n.user = o.user ∧ n.salt = o.salt ∧ n.address = o.address ∧
  (n = o ∨ (n.status = .routed ∧ n.balance = none))

lemma rowSweep_refl (d : Deposit) : rowSweep d d := ⟨rfl, rfl, rfl, rfl, .inl rfl⟩

lemma rowSweep_trans (a b c : Deposit) (h₁ : rowSweep a b) (h₂ : rowSweep b c) :
    rowSweep a c := by
  obtain ⟨i₁, u₁, s₁, a₁, d₁⟩ := h₁
  obtain ⟨i₂, u₂, s₂, a₂, d₂⟩ := h₂
  refine ⟨i₂.trans i₁, u₂.trans u₁, s₂.trans s₁, a₂.trans a₁, ?_⟩
  rcases d₂ with rfl | hc
  · exact d₁
  · exact .inr hc

/-! Section: Small facts about the store primitives -/

lemma markRouted_rows (store : Store) (i : Nat) :
    rowsRel rowSweep store.deposits (markRouted store i).deposits := by
  apply rowsRel_map
  intro d _
  by_cases h : d.id = i <;> simp [h, rowSweep]

lemma markProxied_id_mem (store : Store) (ids : List Nat) (d : Deposit) :
    d ∈ store.deposits → d.id ∈ ids →
      { d with status := Status.proxied } ∈ (markProxied store ids).deposits := by
  intro hd hid
  simp only [markProxied]
  exact List.mem_map.mpr ⟨d, hd, by simp [hid]⟩

lemma nodup_unique_id {l : List Deposit} (h : (l.map Deposit.id).Nodup)
    {a b : Deposit} (ha : a ∈ l) (hb : b ∈ l) (heq : a.id = b.id) : a = b :=
  List.inj_on_of_nodup_map h ha hb heq

/-- Every selected deposit is a store row with an eligible status. -/
lemma selectEligible_subset (store : Store) (scope : Option Bytes) :
    ∀ d ∈ selectEligible store scope,
      d ∈ store.deposits ∧ (d.status = .pending ∨ d.status = .proxied) := by
  intro d hd
  have hd' : d ∈ (store.deposits.filter (eligibleRow scope)).reverse := by
    cases scope with
    | none => exact hd
    | some a => exact List.mem_of_mem_take hd
  rw [List.mem_reverse, List.mem_filter] at hd'
  refine ⟨hd'.1, ?_⟩
  have := hd'.2
  simp only [eligibleRow, Bool.and_eq_true, Bool.or_eq_true, beq_iff_eq] at this
  exact this.1

/-! Section: Facts about `routeFunds` and the sweep fan-out -/

lemma routeFunds_readfail {c : Chain} {p : Bytes} (t : Bytes) (h : c.readFails p = true) :
    routeFunds c p t = (.error .rpcFailure, c, [.getBalance p]) := by
  simp [routeFunds, h]

lemma routeFunds_zero {c : Chain} {p : Bytes} (t : Bytes)
    (h₁ : c.readFails p = false) (h₂ : c.balance p = 0) :
    routeFunds c p t = (.ok 0, c, [.getBalance p]) := by
  simp [routeFunds, h₁, h₂]

/-- The chain after `routeFunds` differs at most in one balance,
which can only have been cleared to zero. -/
lemma routeFunds_chain_inv (c : Chain) (p t : Bytes) :
    (routeFunds c p t).2.1.readFails = c.readFails ∧
    (routeFunds c p t).2.1.code = c.code ∧
    (routeFunds c p t).2.1.transferReverts = c.transferReverts ∧
    (routeFunds c p t).2.1.txHashOf = c.txHashOf ∧
    (routeFunds c p t).2.1.deployReverts = c.deployReverts ∧
    ∀ a, (routeFunds c p t).2.1.balance a = c.balance a ∨
      (routeFunds c p t).2.1.balance a = 0 := by
  unfold routeFunds
  split_ifs <;> simp_all
  intro a
  by_cases hap : a = p <;> simp [hap]

lemma sweepOne_chain_inv (cfg : Config) (d : Deposit) (store : Store) (c : Chain) :
    (sweepOne cfg d store c).2.2.1.readFails = c.readFails ∧
    (sweepOne cfg d store c).2.2.1.code = c.code ∧
    (sweepOne cfg d store c).2.2.1.transferReverts = c.transferReverts ∧
    (sweepOne cfg d store c).2.2.1.txHashOf = c.txHashOf ∧
    (sweepOne cfg d store c).2.2.1.deployReverts = c.deployReverts ∧
    ∀ a, (sweepOne cfg d store c).2.2.1.balance a = c.balance a ∨
      (sweepOne cfg d store c).2.2.1.balance a = 0 := by
  have h := routeFunds_chain_inv c d.address cfg.treasury
  unfold sweepOne
  rcases hr : (routeFunds c d.address cfg.treasury).1 with e | v
  · simp only [hr]; exact h
  · simp only [hr]; split_ifs <;> exact h

lemma sweepAll_chain_inv (cfg : Config) (ds : List Deposit) (store : Store) (c : Chain) :
    (sweepAll cfg ds store c).2.2.1.readFails = c.readFails ∧
    (sweepAll cfg ds store c).2.2.1.code = c.code ∧
    (sweepAll cfg ds store c).2.2.1.transferReverts = c.transferReverts ∧
    (sweepAll cfg ds store c).2.2.1.txHashOf = c.txHashOf ∧
    (sweepAll cfg ds store c).2.2.1.deployReverts = c.deployReverts ∧
    ∀ a, (sweepAll cfg ds store c).2.2.1.balance a = c.balance a ∨
      (sweepAll cfg ds store c).2.2.1.balance a = 0 := by
  induction ds generalizing store c with
  | nil => simp [sweepAll]
  | cons d rest ih =>
    have h₁ := sweepOne_chain_inv cfg d store c
    have h₂ := ih (sweepOne cfg d store c).2.1 (sweepOne cfg d store c).2.2.1
    simp only [sweepAll]
    refine ⟨h₂.1.trans h₁.1, h₂.2.1.trans h₁.2.1, h₂.2.2.1.trans h₁.2.2.1,
      h₂.2.2.2.1.trans h₁.2.2.2.1, h₂.2.2.2.2.1.trans h₁.2.2.2.2.1, fun a => ?_⟩
    rcases h₂.2.2.2.2.2 a with hb | hb
    · rw [hb]; exact h₁.2.2.2.2.2 a
    · exact .inr hb

lemma sweepAll_zero_preserved {cfg : Config} {ds : List Deposit} {store : Store}
    {c : Chain} {a : Bytes} (h : c.balance a = 0) :
    (sweepAll cfg ds store c).2.2.1.balance a = 0 := by
  rcases (sweepAll_chain_inv cfg ds store c).2.2.2.2.2 a with hb | hb
  · rw [hb, h]
  · exact hb

/-! Section: Case analysis of a single sweep -/

/-- Exhaustive behaviour of `sweepOne`: RPC read failure, zero-balance
no-op, transfer revert, or confirmed transfer (with the store update
committed exactly when the confirmed hash is nonzero). -/
lemma sweepOne_spec (cfg : Config) (d : Deposit) (store : Store) (c : Chain) :
    (c.readFails d.address = true ∧
      sweepOne cfg d store c = (.error .rpcFailure, store, c, [.getBalance d.address])) ∨
    (c.readFails d.address = false ∧ c.balance d.address = 0 ∧
      sweepOne cfg d store c = (.ok 0, store, c, [.getBalance d.address])) ∨
    (c.readFails d.address = false ∧ c.balance d.address ≠ 0 ∧
      c.transferReverts d.address = true ∧
      sweepOne cfg d store c =
        (.error .txReverted, store, c, [.getBalance d.address, .transferTx d.address])) ∨
    (c.readFails d.address = false ∧ c.balance d.address ≠ 0 ∧
      c.transferReverts d.address = false ∧
      (sweepOne cfg d store c).2.2.1 =
        { c with balance := fun a => if a = d.address then 0 else c.balance a } ∧
      (sweepOne cfg d store c).1 = .ok (c.txHashOf d.address) ∧
      (sweepOne cfg d store c).2.2.2 = [.getBalance d.address, .transferTx d.address] ∧
      ((c.txHashOf d.address ≠ 0 ∧ (sweepOne cfg d store c).2.1 = markRouted store d.id) ∨
       (c.txHashOf d.address = 0 ∧ (sweepOne cfg d store c).2.1 = store))) := by
  by_cases h₁ : c.readFails d.address
  · exact .inl ⟨h₁, by simp [sweepOne, routeFunds, h₁]⟩
  by_cases h₂ : c.balance d.address = 0
  · refine .inr (.inl ⟨by simpa using h₁, h₂, ?_⟩)
    simp [sweepOne, routeFunds, h₁, h₂]
  by_cases h₃ : c.transferReverts d.address
  · refine .inr (.inr (.inl ⟨by simpa using h₁, h₂, h₃, ?_⟩))
    simp [sweepOne, routeFunds, h₁, h₂, h₃]
  refine .inr (.inr (.inr ⟨by simpa using h₁, h₂, by simpa using h₃, ?_, ?_, ?_, ?_⟩)) <;>
    by_cases h₄ : c.txHashOf d.address = 0 <;>
      simp [sweepOne, routeFunds, h₁, h₂, h₃, h₄]

/-- A single sweep leaves the store unchanged or commits the deposit's
own `routed` update. -/
lemma sweepOne_store_cases (cfg : Config) (d : Deposit) (store : Store) (c : Chain) :
    (sweepOne cfg d store c).2.1 = store ∨
    (sweepOne cfg d store c).2.1 = markRouted store d.id := by
  rcases sweepOne_spec cfg d store c with ⟨_, heq⟩ | ⟨_, _, heq⟩ | ⟨_, _, _, heq⟩ |
    ⟨_, _, _, _, _, _, ⟨_, hst⟩ | ⟨_, hst⟩⟩
  · rw [heq]; exact .inl rfl
  · rw [heq]; exact .inl rfl
  · rw [heq]; exact .inl rfl
  · exact .inr hst
  · exact .inl hst

/-! Section: The `try_join_all` barrier -/

lemma firstErr_cons_ok (v : Nat) (rs : List (Except RunErr Nat)) :
    firstErr (.ok v :: rs) = firstErr rs := by
  simp [firstErr, List.findSome?_cons]

lemma firstErr_cons_error (e : RunErr) (rs : List (Except RunErr Nat)) :
    firstErr (.error e :: rs) = some e := by
  simp [firstErr, List.findSome?_cons]

lemma firstErr_all_ok (l : List Deposit) :
    firstErr (l.map fun _ => (.ok 0 : Except RunErr Nat)) = none := by
  induction l with
  | nil => simp [firstErr]
  | cons d rest ih => simpa [firstErr_cons_ok] using ih

/-- Zero sentinels never survive into the aggregated result. -/
lemma zero_not_mem_okTxs (rs : List (Except RunErr Nat)) : 0 ∉ okTxs rs := by
  simp [okTxs]

lemma okTxs_all_zero (l : List Deposit) :
    okTxs (l.map fun _ => (.ok 0 : Except RunErr Nat)) = [] := by
  induction l with
  | nil => simp [okTxs]
  | cons d rest ih => simpa [okTxs] using ih

/-! Section: Invariants of the sweep fan-out -/

/-- The sweep phase preserves lengths and identifying fields; each
row is either untouched or moved to `routed` with a cleared balance. -/
lemma sweepAll_rows (cfg : Config) (ds : List Deposit) (store : Store) (c : Chain) :
    rowsRel rowSweep store.deposits ((sweepAll cfg ds store c).2.1).deposits := by
  induction ds generalizing store c with
  | nil =>
    simp only [sweepAll]
    exact rowsRel_refl rowSweep_refl _
  | cons d rest ih =>
    simp only [sweepAll]
    refine rowsRel_trans rowSweep_trans ?_ (ih _ _)
    rcases sweepOne_store_cases cfg d store c with h | h <;> rw [h]
    · exact rowsRel_refl rowSweep_refl _
    · exact markRouted_rows store d.id

/-- If the join reports no error, then every swept deposit had a
working balance read and ends the run with a zero on-chain balance. -/
lemma sweepAll_ok_swept (cfg : Config) (ds : List Deposit) (store : Store) (c : Chain)
    (hok : firstErr (sweepAll cfg ds store c).1 = none) :
    ∀ d ∈ ds, c.readFails d.address = false ∧
      (sweepAll cfg ds store c).2.2.1.balance d.address = 0 := by
  induction ds generalizing store c with
  | nil => simp
  | cons e rest ih =>
    intro d hd
    simp only [sweepAll] at hok ⊢
    rcases sweepOne_spec cfg e store c with ⟨_, heq⟩ | ⟨h₁, h₂, heq⟩ | ⟨_, _, _, heq⟩ |
      ⟨h₁, h₂, h₃, hc, hr, _, _⟩
    · rw [heq, firstErr_cons_error] at hok; cases hok
    · rw [heq] at hok ⊢
      rw [firstErr_cons_ok] at hok
      rcases List.mem_cons.mp hd with rfl | hd'
      · exact ⟨h₁, sweepAll_zero_preserved h₂⟩
      · exact ih store c hok d hd'
    · rw [heq, firstErr_cons_error] at hok; cases hok
    · rw [hr, firstErr_cons_ok] at hok
      rcases List.mem_cons.mp hd with rfl | hd'
      · refine ⟨h₁, ?_⟩
        have hz : (sweepOne cfg d store c).2.2.1.balance d.address = 0 := by
          rw [hc]; simp
        exact sweepAll_zero_preserved hz
      · have := ih (sweepOne cfg e store c).2.1 (sweepOne cfg e store c).2.2.1 hok d hd'
        refine ⟨?_, this.2⟩
        rw [hc] at this
        exact this.1

/-- Sweeping deposits whose balances are all zero (with working
reads) is a pure no-op: all-zero sentinels, no store or chain
change, and only balance reads in the effect log. -/
lemma sweepAll_zero_noop (cfg : Config) (ds : List Deposit) (store : Store) (c : Chain)
    (h : ∀ d ∈ ds, c.readFails d.address = false ∧ c.balance d.address = 0) :
    sweepAll cfg ds store c =
      (ds.map fun _ => (.ok 0 : Except RunErr Nat), store, c,
       ds.map fun d => Eff.getBalance d.address) := by
  induction ds with
  | nil => simp [sweepAll]
  | cons d rest ih =>
    obtain ⟨h₁, h₂⟩ := h d (List.mem_cons_self d rest)
    have heq : sweepOne cfg d store c = (.ok 0, store, c, [.getBalance d.address]) := by
      simp [sweepOne, routeFunds, h₁, h₂]
    simp only [sweepAll, heq]
    rw [ih fun e he => h e (List.mem_cons_of_mem d he)]
    simp

lemma sweepAll_length (cfg : Config) (ds : List Deposit) (store : Store) (c : Chain) :
    ((sweepAll cfg ds store c).2.1).deposits.length = store.deposits.length :=
  ((sweepAll_rows cfg ds store c).1).symm

/-- Default row used only as the fallback of positional `getD`
lookups in lemma statements. -/
instance : Inhabited Deposit := ⟨⟨0, [], [], [], none, .pending⟩⟩

lemma getD_map_lt {l : List Deposit} {f : Deposit → Deposit} {j : Nat}
    (h : j < l.length) :
    (l.map f).getD j default = f (l.getD j default) := by
  rw [List.getD_eq_getElem _ _ (by simpa using h), List.getD_eq_getElem _ _ h,
    List.getElem_map]

lemma markRouted_getD_ne (store : Store) (k : Nat) (j : Nat)
    (h₁ : j < store.deposits.length)
    (hne : (store.deposits.getD j default).id ≠ k) :
    (markRouted store k).deposits.getD j default = store.deposits.getD j default := by
  simp only [markRouted]
  rw [getD_map_lt h₁, if_neg hne]

/-- A deposit whose proxy balance is already zero on-chain is never
written by the sweep phase: every store row carrying its id survives
the whole fan-out untouched. -/
lemma sweepAll_frozen_row (cfg : Config) (ds : List Deposit) (store : Store) (c : Chain)
    (i : Nat) (a : Bytes) (hz : c.balance a = 0)
    (ha : ∀ e ∈ ds, e.id = i → e.address = a) :
    ∀ j, j < store.deposits.length → (store.deposits.getD j default).id = i →
      ((sweepAll cfg ds store c).2.1).deposits.getD j default =
        store.deposits.getD j default := by
  induction ds generalizing store c with
  | nil =>
    intro j _ _
    simp only [sweepAll]
  | cons e rest ih =>
    intro j h₁ hid
    simp only [sweepAll]
    by_cases hei : e.id = i
    · -- the sweep of a row with this id reads a zero balance: no-op
      have hea : e.address = a := ha e (List.mem_cons_self e rest) hei
      have heq : (sweepOne cfg e store c).2.1 = store ∧ (sweepOne cfg e store c).2.2.1 = c := by
        rcases sweepOne_spec cfg e store c with ⟨_, h⟩ | ⟨_, _, h⟩ | ⟨_, _, _, h⟩ |
          ⟨_, h₂', _, _, _, _, _⟩
        · rw [h]; exact ⟨rfl, rfl⟩
        · rw [h]; exact ⟨rfl, rfl⟩
        · rw [h]; exact ⟨rfl, rfl⟩
        · exact absurd (hea ▸ hz) h₂'
      rw [heq.1, heq.2]
      exact ih store c hz (fun e' he' => ha e' (List.mem_cons_of_mem e he')) j h₁ hid
    · -- a sweep of a different id never touches this row
      have hz₁ : (sweepOne cfg e store c).2.2.1.balance a = 0 := by
        rcases (sweepOne_chain_inv cfg e store c).2.2.2.2.2 a with hb | hb
        · rw [hb, hz]
        · exact hb
      have hne : (store.deposits.getD j default).id ≠ e.id :=
        fun h => hei (by rw [← h]; exact hid)
      have hrow : (sweepOne cfg e store c).2.1.deposits.getD j default =
          store.deposits.getD j default := by
        rcases sweepOne_store_cases cfg e store c with h | h
        · rw [h]
        · rw [h, markRouted_getD_ne store e.id j h₁ hne]
      have hlen₁ : j < (sweepOne cfg e store c).2.1.deposits.length := by
        rcases sweepOne_store_cases cfg e store c with h | h <;> rw [h]
        · exact h₁
        · simpa [markRouted] using h₁
      have hid' : ((sweepOne cfg e store c).2.1.deposits.getD j default).id = i := by
        rw [hrow]; exact hid
      rw [ih (sweepOne cfg e store c).2.1 (sweepOne cfg e store c).2.2.1 hz₁
        (fun e' he' => ha e' (List.mem_cons_of_mem e he')) j hlen₁ hid', hrow]

/-- No transfer transaction is ever submitted from an address whose
balance was zero when the sweep phase started. -/
lemma sweepAll_no_transfer (cfg : Config) (ds : List Deposit) (store : Store) (c : Chain)
    (a : Bytes) (hz : c.balance a = 0) :
    Eff.transferTx a ∉ (sweepAll cfg ds store c).2.2.2 := by
  induction ds generalizing store c with
  | nil => simp [sweepAll]
  | cons e rest ih =>
    simp only [sweepAll, List.mem_append, not_or]
    have hz₁ : (sweepOne cfg e store c).2.2.1.balance a = 0 := by
      rcases (sweepOne_chain_inv cfg e store c).2.2.2.2.2 a with hb | hb
      · rw [hb, hz]
      · exact hb
    refine ⟨?_, ih (sweepOne cfg e store c).2.1 (sweepOne cfg e store c).2.2.1 hz₁⟩
    rcases sweepOne_spec cfg e store c with ⟨_, heq⟩ | ⟨_, _, heq⟩ | ⟨_, hb, _, heq⟩ |
      ⟨_, hb, _, _, _, he, _⟩
    · rw [heq]; simp
    · rw [heq]; simp
    · have hne : e.address ≠ a := fun h => hb (h ▸ hz)
      rw [heq]; simp [Ne.symm hne]
    · have hne : e.address ≠ a := fun h => hb (h ▸ hz)
      rw [he]; simp [Ne.symm hne]

/-! Section: Facts about `deployProxies` -/

lemma filter_isTx_getCode_map (l : List Bytes) :
    (l.map Eff.getCode).filter Eff.isTx = [] := by
  induction l with
  | nil => simp
  | cons a rest ih => simpa [Eff.isTx] using ih

lemma deployProxies_revert (c : Chain) (cfg : Config) (salts : List Bytes)
    (h : c.deployReverts = true) :
    deployProxies c cfg salts =
      (.error .txReverted, c,
       Eff.predictCall salts ::
         (predictProxyAddresses cfg.deployer cfg.caller salts).map Eff.getCode ++
         [Eff.predictCall (nonDeployedSalts c cfg salts),
          Eff.deployTx (nonDeployedSalts c cfg salts)]) := by
  simp [deployProxies, h]

lemma deployProxies_ok (c : Chain) (cfg : Config) (salts : List Bytes)
    (h : c.deployReverts = false) :
    deployProxies c cfg salts =
      (.ok (predictProxyAddresses cfg.deployer cfg.caller (nonDeployedSalts c cfg salts)),
       markDeployed c
         (predictProxyAddresses cfg.deployer cfg.caller (nonDeployedSalts c cfg salts)),
       Eff.predictCall salts ::
         (predictProxyAddresses cfg.deployer cfg.caller salts).map Eff.getCode ++
         [Eff.predictCall (nonDeployedSalts c cfg salts),
          Eff.deployTx (nonDeployedSalts c cfg salts)]) := by
  simp [deployProxies, h]

lemma markDeployed_frame (c : Chain) (addrs : List Bytes) :
    (markDeployed c addrs).balance = c.balance ∧
    (markDeployed c addrs).readFails = c.readFails ∧
    (markDeployed c addrs).transferReverts = c.transferReverts ∧
    (markDeployed c addrs).txHashOf = c.txHashOf ∧
    (markDeployed c addrs).deployReverts = c.deployReverts := by
  simp [markDeployed]

lemma deployProxies_no_transfer (c : Chain) (cfg : Config) (salts : List Bytes)
    (a : Bytes) : Eff.transferTx a ∉ (deployProxies c cfg salts).2.2 := by
  unfold deployProxies
  split_ifs <;> simp

lemma nonDeployedSalts_nil (c : Chain) (cfg : Config) :
    nonDeployedSalts c cfg [] = [] := by
  simp [nonDeployedSalts, predictProxyAddresses]

/-! Section: Status monotonicity machinery -/

lemma statusMonoRows_refl (l : List Deposit) : statusMonoRows l l :=
  ⟨le_refl _, fun _ _ _ => ⟨rfl, le_refl _⟩⟩

lemma statusMonoRows_trans {a b c : List Deposit}
    (h₁ : statusMonoRows a b) (h₂ : statusMonoRows b c) : statusMonoRows a c := by
  refine ⟨h₁.1.trans h₂.1, fun j hj₁ hj₃ => ?_⟩
  have hj₂ : j < b.length := lt_of_lt_of_le hj₁ h₁.1
  obtain ⟨hi₁, hr₁⟩ := h₁.2 j hj₁ hj₂
  obtain ⟨hi₂, hr₂⟩ := h₂.2 j hj₂ hj₃
  exact ⟨hi₁.trans hi₂, hr₁.trans hr₂⟩

lemma statusMonoRows_map {l : List Deposit} {f : Deposit → Deposit}
    (h : ∀ d ∈ l, (f d).id = d.id ∧ d.status.rank ≤ (f d).status.rank) :
    statusMonoRows l (l.map f) := by
  refine ⟨le_of_eq (List.length_map _ _).symm, fun j hj₁ hj₂ => ?_⟩
  simp only [List.get_eq_getElem, List.getElem_map]
  obtain ⟨hi, hr⟩ := h _ (List.getElem_mem hj₁)
  exact ⟨hi.symm, hr⟩

lemma statusMonoRows_append (l t : List Deposit) : statusMonoRows l (l ++ t) := by
  refine ⟨by simp, fun j hj₁ hj₂ => ?_⟩
  simp [List.get_eq_getElem, List.getElem_append_left hj₁]

lemma statusMonoRows_of_rowSweep {old new : List Deposit}
    (h : rowsRel rowSweep old new) : statusMonoRows old new := by
  refine ⟨le_of_eq h.1, fun j hj₁ hj₂ => ?_⟩
  obtain ⟨hi, _, _, _, hcase⟩ := h.2 j hj₁ hj₂
  refine ⟨hi.symm, ?_⟩
  rcases hcase with heq | ⟨hs, _⟩
  · rw [heq]
  · rw [hs]
    cases (old.get ⟨j, hj₁⟩).status <;> simp [Status.rank]

/-- The batch `proxied` update never regresses a row, provided no
`routed` row's id is among the batch ids. -/
lemma markProxied_mono (store : Store) (ids : List Nat)
    (h : ∀ d ∈ store.deposits, d.id ∈ ids → d.status ≠ .routed) :
    statusMonoRows store.deposits (markProxied store ids).deposits := by
  apply statusMonoRows_map
  intro d hd
  by_cases hid : d.id ∈ ids
  · have hne := h d hd hid
    refine ⟨by simp [hid], ?_⟩
    simp only [if_pos hid]
    cases hs : d.status
    · simp [Status.rank]
    · simp [Status.rank]
    · exact absurd hs hne
  · simp [hid]

/-! Section: Row evolution under the reconciler -/

/-- Reconciler row evolution: only `balance` may change. -/
def rowPoll (o n : Deposit) : Prop :=
  n.id = o.id ∧ n.user = o.user ∧ n.salt = o.salt ∧ n.address = o.address ∧
  n.status = o.status

lemma rowPoll_refl (d : Deposit) : rowPoll d d := ⟨rfl, rfl, rfl, rfl, rfl⟩

lemma rowPoll_trans (a b c : Deposit) (h₁ : rowPoll a b) (h₂ : rowPoll b c) :
    rowPoll a c :=
  ⟨h₂.1.trans h₁.1, h₂.2.1.trans h₁.2.1, h₂.2.2.1.trans h₁.2.2.1,
   h₂.2.2.2.1.trans h₁.2.2.2.1, h₂.2.2.2.2.trans h₁.2.2.2.2⟩

lemma updateBalance_rows (store : Store) (i : Nat) (b : Bytes) :
    rowsRel rowPoll store.deposits (updateBalance store i b).deposits := by
  apply rowsRel_map
  intro d _
  by_cases h : d.id = i <;> simp [h, rowPoll]

lemma pollAll_rows (c : Chain) (ds : List Deposit) (store : Store) :
    rowsRel rowPoll store.deposits (pollAll c ds store).1.deposits := by
  induction ds generalizing store with
  | nil =>
    simp only [pollAll]
    exact rowsRel_refl rowPoll_refl _
  | cons d rest ih =>
    simp only [pollAll]
    by_cases h : c.readFails d.address
    · simp only [h, if_true]
      exact ih store
    · simp only [h, Bool.false_eq_true, if_false]
      exact rowsRel_trans rowPoll_trans (updateBalance_rows store d.id _) (ih _)

/-- With no scope, every eligible store row is selected. -/
lemma selectEligible_none_complete (store : Store) (d : Deposit)
    (hd : d ∈ store.deposits) (hst : d.status = .pending ∨ d.status = .proxied) :
    d ∈ selectEligible store none := by
  simp only [selectEligible, List.mem_reverse, List.mem_filter]
  refine ⟨hd, ?_⟩
  rcases hst with h | h <;> simp [eligibleRow, h]

/-- C9: an empty selection short-circuits into an empty success. -/
theorem routing_empty_selection_is_empty_success (cfg : Config) (s : Sys)
    (scope : Option Bytes) (h : selectEligible s.store scope = []) :
    executeRouting cfg s scope = (.ok RouteResults.empty, s, []) := by
  simp [executeRouting, h]

/-- C9 witness: a run over an empty store returns the empty result
without touching anything. -/
theorem routing_empty_selection_is_empty_success_witness :
    (let s : Sys := ⟨⟨[], 1⟩,
       ⟨fun _ => 0, fun _ => false, fun _ => false, fun _ => false, fun _ => 0, false⟩⟩;
     let cfg : Config := ⟨[1], [2], [3]⟩;
     selectEligible s.store none = [] ∧
       executeRouting cfg s none = (.ok RouteResults.empty, s, [])) :=
  ⟨rfl, routing_empty_selection_is_empty_success _ _ none rfl⟩

lemma isEmpty_false_of_ne_nil {l : List Deposit} (h : l ≠ []) : l.isEmpty = false := by
  cases l with
  | nil => exact absurd rfl h
  | cons a t => rfl

/-- C3: a reverted deployment transaction fails the whole run with
the error surfaced, and the store is left exactly as it was. -/
theorem deploy_revert_fails_run_without_transitions (cfg : Config) (s : Sys)
    (scope : Option Bytes) (hne : selectEligible s.store scope ≠ [])
    (hrev : s.chain.deployReverts = true) :
    (executeRouting cfg s scope).1 = .error .txReverted ∧
    (executeRouting cfg s scope).2.1.store = s.store := by
  have hni : (selectEligible s.store scope).isEmpty = false := isEmpty_false_of_ne_nil hne
  simp only [executeRouting, hni, Bool.false_eq_true, if_false,
    deployProxies_revert s.chain cfg _ hrev]
  exact ⟨trivial, trivial⟩

/-- C3 witness: one pending deposit, deployment reverts. -/
theorem deploy_revert_fails_run_without_transitions_witness :
    (let s : Sys := ⟨⟨[⟨1, [1], [2], [3], none, Status.pending⟩], 2⟩,
       ⟨fun _ => 0, fun _ => false, fun _ => false, fun _ => false, fun _ => 0, true⟩⟩;
     let cfg : Config := ⟨[1], [2], [3]⟩;
     (selectEligible s.store none ≠ [] ∧ s.chain.deployReverts = true) ∧
       (executeRouting cfg s none).1 = .error .txReverted ∧
       (executeRouting cfg s none).2.1.store = s.store) :=
  ⟨⟨by decide, rfl⟩, deploy_revert_fails_run_without_transitions _ _ none (by decide) rfl⟩

/-- C5: no operation of the core (orchestration run, reconciler pass,
deposit creation) ever moves a deposit's status backward along
`pending -> proxied -> routed`; positions and ids are preserved and
each row's rank is monotone. -/
theorem status_never_regresses (cfg : Config) (s : Sys) (op : Op)
    (hnodup : (s.store.deposits.map Deposit.id).Nodup) :
    statusMonoRows s.store.deposits (applyOp cfg s op).store.deposits := by
  cases op with
  | poll =>
    simp only [applyOp, pollBalances]
    refine ⟨le_of_eq (pollAll_rows s.chain _ s.store).1, fun j hj₁ hj₂ => ?_⟩
    obtain ⟨hi, _, _, _, hs⟩ := (pollAll_rows s.chain (selectEligible s.store none) s.store).2 j hj₁ hj₂
    exact ⟨hi.symm, le_of_eq (by rw [hs])⟩
  | create input =>
    simp only [applyOp, insertDeposit]
    cases hv : validateHex input 20 "user" with
    | error e =>
      simp only [hv]
      exact statusMonoRows_refl _
    | ok user =>
      simp only [hv, predictProxyAddresses, List.map_cons, List.head?_cons,
        dbInsertDeposit]
      exact statusMonoRows_append _ _
  | route scope =>
    simp only [applyOp]
    by_cases hsel : (selectEligible s.store scope).isEmpty = true
    · simp only [executeRouting, hsel, if_true]
      exact statusMonoRows_refl _
    · have hni : (selectEligible s.store scope).isEmpty = false :=
        Bool.not_eq_true _ ▸ by simpa using hsel
      simp only [executeRouting, hni, Bool.false_eq_true, if_false]
      cases hdp : (deployProxies s.chain cfg
          (((selectEligible s.store scope).filter fun d => !(d.status == .proxied)).map
            (·.salt))).1 with
      | error e =>
        simp only [hdp]
        exact statusMonoRows_refl _
      | ok addrs =>
        simp only [hdp]
        have hmono₁ : statusMonoRows s.store.deposits
            (markProxied s.store ((selectEligible s.store scope).map (·.id))).deposits := by
          apply markProxied_mono
          intro d hd hid
          obtain ⟨e, he, heid⟩ := List.mem_map.mp hid
          obtain ⟨hes, helig⟩ := selectEligible_subset s.store scope e he
          have : e = d := nodup_unique_id hnodup hes hd heid
          subst this
          rcases helig with h | h <;> simp [h]
        have hmono₂ := statusMonoRows_of_rowSweep
          (sweepAll_rows cfg (selectEligible s.store scope)
            (markProxied s.store ((selectEligible s.store scope).map (·.id)))
            (deployProxies s.chain cfg
              (((selectEligible s.store scope).filter fun d => !(d.status == .proxied)).map
                (·.salt))).2.1)
        cases hfe : firstErr (sweepAll cfg (selectEligible s.store scope)
            (markProxied s.store ((selectEligible s.store scope).map (·.id)))
            (deployProxies s.chain cfg
              (((selectEligible s.store scope).filter fun d => !(d.status == .proxied)).map
                (·.salt))).2.1).1 with
        | none =>
          simp only [hfe]
          exact statusMonoRows_trans hmono₁ hmono₂
        | some e =>
          simp only [hfe]
          exact statusMonoRows_trans hmono₁ hmono₂

/-- C5 witness: a reconciler pass over a one-row store. -/
theorem status_never_regresses_witness :
    (let s : Sys := ⟨⟨[⟨1, [1], [2], [3], none, Status.pending⟩], 2⟩,
       ⟨fun _ => 7, fun _ => false, fun _ => false, fun _ => false, fun _ => 0, false⟩⟩;
     let cfg : Config := ⟨[1], [2], [3]⟩;
     (s.store.deposits.map Deposit.id).Nodup ∧
       statusMonoRows s.store.deposits (applyOp cfg s .poll).store.deposits) :=
  ⟨by decide, status_never_regresses _ _ .poll (by decide)⟩

/-! Section: Lengths of derived values -/

lemma keccak256_length (input : Bytes) : (keccak256 input).length = 32 := by
  simp [keccak256, laneBytes]

lemma predictAddress_length (deployer caller salt : Bytes) :
    (predictAddress deployer caller salt).length = 20 := by
  simp [predictAddress, keccak256_length]

/-- C6 (failing input): `validate_hex` is meant to reject malformed
input with a 400 validation error, but on an odd-length hex string
the slice `&s[i..i+2]` in `decode_hex` is out of bounds and the
handler panics instead of returning — on the creation path and on
the routing path alike.  A well-formed but wrong-width input, by
contrast, is rejected with a proper validation error before any
chain call or store write. -/
theorem malformed_hex_panics_instead_of_rejecting :
    (let s : Sys := ⟨⟨[], 1⟩,
       ⟨fun _ => 0, fun _ => false, fun _ => false, fun _ => false, fun _ => 0, false⟩⟩;
     let cfg : Config := ⟨[1], [2], [3]⟩;
     insertDeposit cfg s ['0', 'x', 'a', 'b', 'c'] =
       (.error (.panicked "byte index out of bounds"), s, []) ∧
     executeRoutingHandler cfg s (some ['0', 'x', 'a', 'b', 'c']) =
       (.error (.panicked "byte index out of bounds"), s, []) ∧
     insertDeposit cfg s ['0', 'x', 'a', 'b'] =
       (.error (.badRequest "user must have expected length"), s, [])) :=
  ⟨rfl, rfl, rfl⟩

/-- C8: address derivation is a deterministic pure read.  For any
valid 20-byte user id, two creations — from arbitrary prior states —
derive the identical salt (`keccak256(user)`, 32 bytes) and the
identical predicted proxy address (20 bytes); each derivation leaves
the chain untouched and performs exactly one read-only prediction
call, submitting no transaction. -/
theorem derive_address_deterministic_and_readonly
    (cfg : Config) (s₁ s₂ : Sys) (u : List Char) (bytes : Bytes)
    (h : validateHex u 20 "user" = .ok bytes) :
    ∃ row₁ row₂ : Deposit,
      (insertDeposit cfg s₁ u).2.1.store.deposits = s₁.store.deposits ++ [row₁] ∧
      (insertDeposit cfg s₂ u).2.1.store.deposits = s₂.store.deposits ++ [row₂] ∧
      row₁.salt = keccak256 bytes ∧ row₁.salt = row₂.salt ∧
      row₁.address = row₂.address ∧
      row₁.salt.length = 32 ∧ row₁.address.length = 20 ∧
      (insertDeposit cfg s₁ u).2.1.chain = s₁.chain ∧
      (insertDeposit cfg s₂ u).2.1.chain = s₂.chain ∧
      (insertDeposit cfg s₁ u).2.2 = [.predictCall [keccak256 bytes]] ∧
      ((insertDeposit cfg s₁ u).2.2.filter Eff.isTx) = [] := by
  refine ⟨⟨s₁.store.nextId, bytes, keccak256 bytes,
      predictAddress cfg.deployer cfg.caller (keccak256 bytes), none, .pending⟩,
    ⟨s₂.store.nextId, bytes, keccak256 bytes,
      predictAddress cfg.deployer cfg.caller (keccak256 bytes), none, .pending⟩,
    ?_, ?_, rfl, rfl, rfl, keccak256_length bytes, predictAddress_length _ _ _,
    ?_, ?_, ?_, ?_⟩ <;>
  simp [insertDeposit, h, predictProxyAddresses, dbInsertDeposit, Eff.isTx]

/-- C8 witness: the same user id inserted from two different store
states yields the same salt and address, with no transactions. -/
theorem derive_address_deterministic_and_readonly_witness :
    (let u := '0' :: 'x' :: List.replicate 40 'a';
     let cfg : Config := ⟨[1], [2], [3]⟩;
     let s₁ : Sys := ⟨⟨[⟨1, [9], [9], [9], none, Status.routed⟩], 5⟩,
       ⟨fun _ => 0, fun _ => false, fun _ => false, fun _ => false, fun _ => 0, false⟩⟩;
     let s₂ : Sys := ⟨⟨[], 1⟩,
       ⟨fun _ => 3, fun _ => true, fun _ => false, fun _ => false, fun _ => 1, false⟩⟩;
     validateHex u 20 "user" = .ok (List.replicate 20 170) ∧
     ∃ row₁ row₂ : Deposit,
       (insertDeposit cfg s₁ u).2.1.store.deposits = s₁.store.deposits ++ [row₁] ∧
       (insertDeposit cfg s₂ u).2.1.store.deposits = s₂.store.deposits ++ [row₂] ∧
       row₁.salt = keccak256 (List.replicate 20 170) ∧ row₁.salt = row₂.salt ∧
       row₁.address = row₂.address ∧
       row₁.salt.length = 32 ∧ row₁.address.length = 20 ∧
       (insertDeposit cfg s₁ u).2.1.chain = s₁.chain ∧
       (insertDeposit cfg s₂ u).2.1.chain = s₂.chain ∧
       (insertDeposit cfg s₁ u).2.2 = [.predictCall [keccak256 (List.replicate 20 170)]] ∧
       ((insertDeposit cfg s₁ u).2.2.filter Eff.isTx) = []) :=
  ⟨rfl, derive_address_deterministic_and_readonly _ _ _ _ _ rfl⟩

/-- C10: creation enforces no per-user uniqueness: a second insert
for the same user always succeeds, appending a fresh row with a
distinct id but the identical salt and address. -/
theorem duplicate_user_creates_second_row (cfg : Config) (s : Sys) (u : List Char)
    (bytes : Bytes) (h : validateHex u 20 "user" = .ok bytes) :
    ∃ i₁ i₂ : Nat, ∃ row₁ row₂ : Deposit,
      (insertDeposit cfg s u).1 = .ok i₁ ∧
      (insertDeposit cfg (insertDeposit cfg s u).2.1 u).1 = .ok i₂ ∧
      i₁ ≠ i₂ ∧
      (insertDeposit cfg (insertDeposit cfg s u).2.1 u).2.1.store.deposits =
        s.store.deposits ++ [row₁, row₂] ∧
      row₁.id = i₁ ∧ row₂.id = i₂ ∧
      row₁.user = bytes ∧ row₂.user = bytes ∧
      row₁.salt = row₂.salt ∧ row₁.address = row₂.address := by
  refine ⟨s.store.nextId, s.store.nextId + 1,
    ⟨s.store.nextId, bytes, keccak256 bytes,
      predictAddress cfg.deployer cfg.caller (keccak256 bytes), none, .pending⟩,
    ⟨s.store.nextId + 1, bytes, keccak256 bytes,
      predictAddress cfg.deployer cfg.caller (keccak256 bytes), none, .pending⟩,
    ?_, ?_, by omega, ?_, rfl, rfl, rfl, rfl, rfl, rfl⟩ <;>
  simp [insertDeposit, h, predictProxyAddresses, dbInsertDeposit]

/-- C10 witness: inserting the same user twice into an empty store
creates two rows with ids 1 and 2 sharing salt and address. -/
theorem duplicate_user_creates_second_row_witness :
    (let u := '0' :: 'x' :: List.replicate 40 'a';
     let cfg : Config := ⟨[1], [2], [3]⟩;
     let s : Sys := ⟨⟨[], 1⟩,
       ⟨fun _ => 0, fun _ => false, fun _ => false, fun _ => false, fun _ => 0, false⟩⟩;
     validateHex u 20 "user" = .ok (List.replicate 20 170) ∧
     ∃ i₁ i₂ : Nat, ∃ row₁ row₂ : Deposit,
       (insertDeposit cfg s u).1 = .ok i₁ ∧
       (insertDeposit cfg (insertDeposit cfg s u).2.1 u).1 = .ok i₂ ∧
       i₁ ≠ i₂ ∧
       (insertDeposit cfg (insertDeposit cfg s u).2.1 u).2.1.store.deposits =
         s.store.deposits ++ [row₁, row₂] ∧
       row₁.id = i₁ ∧ row₂.id = i₂ ∧
       row₁.user = List.replicate 20 170 ∧ row₂.user = List.replicate 20 170 ∧
       row₁.salt = row₂.salt ∧ row₁.address = row₂.address) :=
  ⟨rfl, duplicate_user_creates_second_row _ _ _ _ rfl⟩

/-! Section: Per-row behaviour of the reconciler -/

lemma updateBalance_getD_ne (store : Store) (i : Nat) (b : Bytes) (j : Nat)
    (h₁ : j < store.deposits.length)
    (hne : (store.deposits.getD j default).id ≠ i) :
    (updateBalance store i b).deposits.getD j default = store.deposits.getD j default := by
  simp only [updateBalance]
  rw [getD_map_lt h₁, if_neg hne]

lemma updateBalance_getD_eq (store : Store) (i : Nat) (b : Bytes) (j : Nat)
    (h₁ : j < store.deposits.length)
    (heq : (store.deposits.getD j default).id = i) :
    (updateBalance store i b).deposits.getD j default =
      { store.deposits.getD j default with balance := some b } := by
  simp only [updateBalance]
  rw [getD_map_lt h₁, if_pos heq]

lemma updateBalance_length (store : Store) (i : Nat) (b : Bytes) :
    (updateBalance store i b).deposits.length = store.deposits.length := by
  simp [updateBalance]

lemma pollAll_length (c : Chain) (ds : List Deposit) (store : Store) :
    (pollAll c ds store).1.deposits.length = store.deposits.length :=
  ((pollAll_rows c ds store).1).symm

/-- Rows whose id never occurs among the polled deposits are left
untouched by the reconciler pass. -/
lemma pollAll_none_touches (c : Chain) (ds : List Deposit) (store : Store) (i : Nat)
    (hnone : ∀ e ∈ ds, e.id ≠ i) :
    ∀ j, j < store.deposits.length → (store.deposits.getD j default).id = i →
      (pollAll c ds store).1.deposits.getD j default = store.deposits.getD j default := by
  induction ds generalizing store with
  | nil => intro j _ _; simp only [pollAll]
  | cons e rest ih =>
    intro j h₁ hid
    simp only [pollAll]
    have hne : e.id ≠ i := hnone e (List.mem_cons_self e rest)
    by_cases hrf : c.readFails e.address
    · simp only [hrf, if_true]
      exact ih store (fun e' he' => hnone e' (List.mem_cons_of_mem e he')) j h₁ hid
    · simp only [hrf, Bool.false_eq_true, if_false]
      have hrow := updateBalance_getD_ne store e.id (beBytes32 (c.balance e.address)) j h₁
        (fun h => hne (by rw [← h]; exact hid))
      have h₁' : j < (updateBalance store e.id (beBytes32 (c.balance e.address))).deposits.length := by
        rw [updateBalance_length]; exact h₁
      have hid' : ((updateBalance store e.id
          (beBytes32 (c.balance e.address))).deposits.getD j default).id = i := by
        rw [hrow]; exact hid
      rw [ih _ (fun e' he' => hnone e' (List.mem_cons_of_mem e he')) j h₁' hid', hrow]

/-- The stale-balance guarantee: a row all of whose polled
occurrences hit a failing balance read is left fully unchanged. -/
lemma pollAll_stale (c : Chain) (ds : List Deposit) (store : Store) (i : Nat)
    (hids : ∀ e ∈ ds, e.id = i → c.readFails e.address = true) :
    ∀ j, j < store.deposits.length → (store.deposits.getD j default).id = i →
      (pollAll c ds store).1.deposits.getD j default = store.deposits.getD j default := by
  induction ds generalizing store with
  | nil => intro j _ _; simp only [pollAll]
  | cons e rest ih =>
    intro j h₁ hid
    simp only [pollAll]
    by_cases hrf : c.readFails e.address
    · simp only [hrf, if_true]
      exact ih store (fun e' he' => hids e' (List.mem_cons_of_mem e he')) j h₁ hid
    · simp only [hrf, Bool.false_eq_true, if_false]
      have hne : e.id ≠ i := fun h => hrf (hids e (List.mem_cons_self e rest) h)
      have hrow := updateBalance_getD_ne store e.id (beBytes32 (c.balance e.address)) j h₁
        (fun h => hne (by rw [← h]; exact hid))
      have h₁' : j < (updateBalance store e.id (beBytes32 (c.balance e.address))).deposits.length := by
        rw [updateBalance_length]; exact h₁
      have hid' : ((updateBalance store e.id
          (beBytes32 (c.balance e.address))).deposits.getD j default).id = i := by
        rw [hrow]; exact hid
      rw [ih _ (fun e' he' => hids e' (List.mem_cons_of_mem e he')) j h₁' hid', hrow]

/-- The refresh guarantee: a polled deposit whose balance read
succeeds ends the pass with exactly the freshly read balance (and
nothing else changed on its row). -/
lemma pollAll_success (c : Chain) (ds : List Deposit) (store : Store) (d : Deposit)
    (hmem : d ∈ ds) (hnodup : (ds.map Deposit.id).Nodup)
    (hrf : c.readFails d.address = false) :
    ∀ j, j < store.deposits.length → (store.deposits.getD j default).id = d.id →
      (pollAll c ds store).1.deposits.getD j default =
        { store.deposits.getD j default with
          balance := some (beBytes32 (c.balance d.address)) } := by
  induction ds generalizing store with
  | nil => cases hmem
  | cons e rest ih =>
    intro j h₁ hid
    simp only [pollAll]
    rcases List.mem_cons.mp hmem with rfl | hd'
    · -- the head is the polled deposit itself
      simp only [hrf, Bool.false_eq_true, if_false]
      have hrow := updateBalance_getD_eq store d.id (beBytes32 (c.balance d.address)) j h₁ hid
      have h₁' : j < (updateBalance store d.id (beBytes32 (c.balance d.address))).deposits.length := by
        rw [updateBalance_length]; exact h₁
      have hid' : ((updateBalance store d.id
          (beBytes32 (c.balance d.address))).deposits.getD j default).id = d.id := by
        rw [hrow]; exact hid
      have hnone : ∀ e' ∈ rest, e'.id ≠ d.id := by
        intro e' he' h
        have : d.id ∈ rest.map Deposit.id := List.mem_map.mpr ⟨e', he', h⟩
        exact (List.nodup_cons.mp hnodup).1 this
      rw [pollAll_none_touches c rest _ d.id hnone j h₁' hid', hrow]
    · -- the polled deposit sits in the tail; the head is a different id
      have hne : e.id ≠ d.id := by
        intro h
        have : e.id ∈ rest.map Deposit.id := List.mem_map.mpr ⟨d, hd', h.symm⟩
        exact (List.nodup_cons.mp hnodup).1 this
      by_cases hrfe : c.readFails e.address
      · simp only [hrfe, if_true]
        exact ih store hd' (List.nodup_cons.mp hnodup).2 j h₁ hid
      · simp only [hrfe, Bool.false_eq_true, if_false]
        have hrow := updateBalance_getD_ne store e.id (beBytes32 (c.balance e.address)) j h₁
          (fun h => hne (by rw [← h]; exact hid))
        have h₁' : j < (updateBalance store e.id (beBytes32 (c.balance e.address))).deposits.length := by
          rw [updateBalance_length]; exact h₁
        have hid' : ((updateBalance store e.id
            (beBytes32 (c.balance e.address))).deposits.getD j default).id = d.id := by
          rw [hrow]; exact hid
        rw [ih _ hd' (List.nodup_cons.mp hnodup).2 j h₁' hid', hrow]

lemma getD_mem {l : List Deposit} {j : Nat} (h : j < l.length) :
    l.getD j default ∈ l := by
  rw [List.getD_eq_getElem _ _ h]
  exact List.getElem_mem h

lemma selectEligible_ids_nodup (store : Store)
    (h : (store.deposits.map Deposit.id).Nodup) :
    ((selectEligible store none).map Deposit.id).Nodup := by
  simp only [selectEligible, List.map_reverse, List.nodup_reverse]
  exact List.Nodup.sublist ((List.filter_sublist _).map Deposit.id) h

/-- C7: the Balance Reconciler never mutates status, id, user, salt
or address of any row; an eligible row whose balance read fails is
left fully unchanged (stale), an eligible row whose read succeeds
gets exactly the freshly read balance, rows outside the selection
are untouched, and the chain state is untouched. -/
theorem reconciler_touches_only_balance (s : Sys)
    (hnodup : (s.store.deposits.map Deposit.id).Nodup) :
    (pollBalances s).1.chain = s.chain ∧
    rowsRel rowPoll s.store.deposits (pollBalances s).1.store.deposits ∧
    ∀ j, j < s.store.deposits.length →
      ((((s.store.deposits.getD j default).status = .pending ∨
         (s.store.deposits.getD j default).status = .proxied) →
        ((s.chain.readFails (s.store.deposits.getD j default).address = true →
          (pollBalances s).1.store.deposits.getD j default =
            s.store.deposits.getD j default) ∧
         (s.chain.readFails (s.store.deposits.getD j default).address = false →
          (pollBalances s).1.store.deposits.getD j default =
            { s.store.deposits.getD j default with
              balance := some (beBytes32 (s.chain.balance
                (s.store.deposits.getD j default).address)) }))) ∧
       ((s.store.deposits.getD j default).status = .routed →
        (pollBalances s).1.store.deposits.getD j default =
          s.store.deposits.getD j default)) := by
  refine ⟨rfl, pollAll_rows _ _ _, ?_⟩
  intro j hj
  have homem : s.store.deposits.getD j default ∈ s.store.deposits := getD_mem hj
  constructor
  · intro helig
    have hsel : s.store.deposits.getD j default ∈ selectEligible s.store none :=
      selectEligible_none_complete _ _ homem helig
    constructor
    · intro hrf
      exact pollAll_stale s.chain _ s.store (s.store.deposits.getD j default).id
        (fun e he hei => by
          rw [nodup_unique_id hnodup (selectEligible_subset _ _ e he).1 homem hei]
          exact hrf)
        j hj rfl
    · intro hrf
      exact pollAll_success s.chain _ s.store (s.store.deposits.getD j default)
        hsel (selectEligible_ids_nodup s.store hnodup) hrf j hj rfl
  · intro hrouted
    refine pollAll_none_touches s.chain _ s.store (s.store.deposits.getD j default).id
      (fun e he hei => ?_) j hj rfl
    have he' := selectEligible_subset _ _ e he
    have heq : e = s.store.deposits.getD j default :=
      nodup_unique_id hnodup he'.1 homem hei
    rw [heq] at he'
    rcases he'.2 with h | h <;> rw [hrouted] at h <;> exact Status.noConfusion h

/-- C7 witness: two eligible rows, the first one's balance read
fails; the frame and isolation conclusions hold for that store. -/
theorem reconciler_touches_only_balance_witness :
    (let s : Sys := ⟨⟨[⟨1, [1], [1], [10], none, Status.pending⟩,
        ⟨2, [2], [2], [11], some [9], Status.proxied⟩], 3⟩,
       ⟨fun _ => 5, fun _ => false, fun a => a == [10], fun _ => false, fun _ => 0, false⟩⟩;
     (s.store.deposits.map Deposit.id).Nodup ∧
     ((pollBalances s).1.chain = s.chain ∧
      rowsRel rowPoll s.store.deposits (pollBalances s).1.store.deposits ∧
      ∀ j, j < s.store.deposits.length →
        ((((s.store.deposits.getD j default).status = .pending ∨
           (s.store.deposits.getD j default).status = .proxied) →
          ((s.chain.readFails (s.store.deposits.getD j default).address = true →
            (pollBalances s).1.store.deposits.getD j default =
              s.store.deposits.getD j default) ∧
           (s.chain.readFails (s.store.deposits.getD j default).address = false →
            (pollBalances s).1.store.deposits.getD j default =
              { s.store.deposits.getD j default with
                balance := some (beBytes32 (s.chain.balance
                  (s.store.deposits.getD j default).address)) }))) ∧
         ((s.store.deposits.getD j default).status = .routed →
          (pollBalances s).1.store.deposits.getD j default =
            s.store.deposits.getD j default)))) :=
  ⟨by decide, reconciler_touches_only_balance _ (by decide)⟩

lemma markProxied_length (store : Store) (ids : List Nat) :
    (markProxied store ids).deposits.length = store.deposits.length := by
  simp [markProxied]

lemma markProxied_getD (store : Store) (ids : List Nat) (j : Nat)
    (h₁ : j < store.deposits.length) :
    (markProxied store ids).deposits.getD j default =
      (if (store.deposits.getD j default).id ∈ ids
       then { store.deposits.getD j default with status := .proxied }
       else store.deposits.getD j default) := by
  simp only [markProxied]
  rw [getD_map_lt h₁]

lemma deployProxies_chain_frame (c : Chain) (cfg : Config) (salts : List Bytes) :
    (deployProxies c cfg salts).2.1.balance = c.balance ∧
    (deployProxies c cfg salts).2.1.readFails = c.readFails ∧
    (deployProxies c cfg salts).2.1.transferReverts = c.transferReverts ∧
    (deployProxies c cfg salts).2.1.txHashOf = c.txHashOf ∧
    (deployProxies c cfg salts).2.1.deployReverts = c.deployReverts := by
  unfold deployProxies
  split_ifs <;> simp [markDeployed]

/-- C4: a selected deposit with zero on-chain balance is swept as a
no-op success: every store row carrying its id never becomes
`routed` and keeps its stored balance; no transfer transaction is
ever submitted from its address; and when the run returns a result,
the zero sentinel has been filtered out of the transaction ids. -/
theorem zero_balance_sweep_is_noop (cfg : Config) (s : Sys) (scope : Option Bytes)
    (d : Deposit) (hnodup : (s.store.deposits.map Deposit.id).Nodup)
    (hd : d ∈ selectEligible s.store scope)
    (hz : s.chain.balance d.address = 0) :
    (∀ j, j < s.store.deposits.length →
      (s.store.deposits.getD j default).id = d.id →
      (((executeRouting cfg s scope).2.1.store.deposits.getD j default).status ≠ .routed ∧
       ((executeRouting cfg s scope).2.1.store.deposits.getD j default).balance =
         (s.store.deposits.getD j default).balance)) ∧
    Eff.transferTx d.address ∉ (executeRouting cfg s scope).2.2 ∧
    (∀ r, (executeRouting cfg s scope).1 = .ok r → 0 ∉ r.txs) := by
  obtain ⟨hdmem, hdelig⟩ := selectEligible_subset s.store scope d hd
  have hni : (selectEligible s.store scope).isEmpty = false :=
    isEmpty_false_of_ne_nil (fun h => by rw [h] at hd; cases hd)
  have hrowd : ∀ j, j < s.store.deposits.length →
      (s.store.deposits.getD j default).id = d.id →
      s.store.deposits.getD j default = d :=
    fun j hj hid => nodup_unique_id hnodup (getD_mem hj) hdmem hid
  have haddr : ∀ e ∈ selectEligible s.store scope, e.id = d.id → e.address = d.address :=
    fun e he hei => by
      rw [nodup_unique_id hnodup (selectEligible_subset s.store scope e he).1 hdmem hei]
  simp only [executeRouting, hni, Bool.false_eq_true, if_false]
  cases hdp : (deployProxies s.chain cfg
      (((selectEligible s.store scope).filter fun e => !(e.status == .proxied)).map
        (·.salt))).1 with
  | error e =>
    simp only [hdp]
    refine ⟨fun j hj hid => ?_, deployProxies_no_transfer _ _ _ _, fun r hr => by cases hr⟩
    rw [hrowd j hj hid]
    rcases hdelig with h | h <;> rw [h] <;> exact ⟨Status.noConfusion, trivial⟩
  | ok addrs =>
    simp only [hdp]
    have hzc : (deployProxies s.chain cfg
        (((selectEligible s.store scope).filter fun e => !(e.status == .proxied)).map
          (·.salt))).2.1.balance d.address = 0 := by
      rw [(deployProxies_chain_frame _ _ _).1]; exact hz
    have hfro := sweepAll_frozen_row cfg (selectEligible s.store scope)
      (markProxied s.store ((selectEligible s.store scope).map (·.id)))
      (deployProxies s.chain cfg
        (((selectEligible s.store scope).filter fun e => !(e.status == .proxied)).map
          (·.salt))).2.1 d.id d.address hzc haddr
    have hnt : Eff.transferTx d.address ∉ (sweepAll cfg (selectEligible s.store scope)
        (markProxied s.store ((selectEligible s.store scope).map (·.id)))
        (deployProxies s.chain cfg
          (((selectEligible s.store scope).filter fun e => !(e.status == .proxied)).map
            (·.salt))).2.1).2.2.2 :=
      sweepAll_no_transfer _ _ _ _ _ hzc
    have hrow₁ : ∀ j, j < s.store.deposits.length →
        (s.store.deposits.getD j default).id = d.id →
        (markProxied s.store ((selectEligible s.store scope).map (·.id))).deposits.getD
            j default = { d with status := .proxied } := by
      intro j hj hid
      rw [markProxied_getD s.store _ j hj, hrowd j hj hid,
        if_pos (List.mem_map.mpr ⟨d, hd, rfl⟩)]
    have hmain : ∀ j, j < s.store.deposits.length →
        (s.store.deposits.getD j default).id = d.id →
        ((sweepAll cfg (selectEligible s.store scope)
          (markProxied s.store ((selectEligible s.store scope).map (·.id)))
          (deployProxies s.chain cfg
            (((selectEligible s.store scope).filter fun e => !(e.status == .proxied)).map
              (·.salt))).2.1).2.1.deposits.getD j default).status ≠ .routed ∧
        ((sweepAll cfg (selectEligible s.store scope)
          (markProxied s.store ((selectEligible s.store scope).map (·.id)))
          (deployProxies s.chain cfg
            (((selectEligible s.store scope).filter fun e => !(e.status == .proxied)).map
              (·.salt))).2.1).2.1.deposits.getD j default).balance =
          (s.store.deposits.getD j default).balance := by
      intro j hj hid
      have hj₁ : j < (markProxied s.store
          ((selectEligible s.store scope).map (·.id))).deposits.length := by
        rw [markProxied_length]; exact hj
      have hid₁ : ((markProxied s.store
          ((selectEligible s.store scope).map (·.id))).deposits.getD j default).id = d.id := by
        rw [hrow₁ j hj hid]
      rw [hfro j hj₁ hid₁, hrow₁ j hj hid, hrowd j hj hid]
      exact ⟨Status.noConfusion, rfl⟩
    cases hfe : firstErr (sweepAll cfg (selectEligible s.store scope)
        (markProxied s.store ((selectEligible s.store scope).map (·.id)))
        (deployProxies s.chain cfg
          (((selectEligible s.store scope).filter fun e => !(e.status == .proxied)).map
            (·.salt))).2.1).1 with
    | some e =>
      simp only [hfe]
      refine ⟨hmain, ?_, fun r hr => by cases hr⟩
      simp only [List.mem_append, not_or]
      exact ⟨deployProxies_no_transfer _ _ _ _, hnt⟩
    | none =>
      simp only [hfe]
      refine ⟨hmain, ?_, fun r hr => ?_⟩
      · simp only [List.mem_append, not_or]
        exact ⟨deployProxies_no_transfer _ _ _ _, hnt⟩
      · cases hr
        exact zero_not_mem_okTxs _

/-- C4 witness: a single proxied deposit with zero on-chain balance;
a run leaves it `proxied` with its balance intact, submits no
transfer, and returns no transaction id for it. -/
theorem zero_balance_sweep_is_noop_witness :
    (let s : Sys := ⟨⟨[⟨1, [1], [2], List.replicate 20 3, some [5], Status.proxied⟩], 2⟩,
       ⟨fun _ => 0, fun _ => true, fun _ => false, fun _ => false, fun _ => 7, false⟩⟩;
     let cfg : Config := ⟨[1], [2], [3]⟩;
     let d : Deposit := ⟨1, [1], [2], List.replicate 20 3, some [5], Status.proxied⟩;
     ((s.store.deposits.map Deposit.id).Nodup ∧
       d ∈ selectEligible s.store none ∧ s.chain.balance d.address = 0) ∧
     ((∀ j, j < s.store.deposits.length →
        (s.store.deposits.getD j default).id = d.id →
        (((executeRouting cfg s none).2.1.store.deposits.getD j default).status ≠ .routed ∧
         ((executeRouting cfg s none).2.1.store.deposits.getD j default).balance =
           (s.store.deposits.getD j default).balance)) ∧
      Eff.transferTx d.address ∉ (executeRouting cfg s none).2.2 ∧
      (∀ r, (executeRouting cfg s none).1 = .ok r → 0 ∉ r.txs))) :=
  ⟨⟨by decide, by decide, rfl⟩,
   zero_balance_sweep_is_noop _ _ none _ (by decide) (by decide) rfl⟩

/-- C1 (failing run): three proxied deposits with nonzero balances,
the middle one's `transferFunds` reverts.  The failing deposit keeps
status `proxied` with its stored balance intact, and — in a schedule
where no sibling is cancelled — both siblings commit their `routed`
updates; but the `try_join_all` barrier turns the single failure
into a failure of the whole run, which returns an error instead of
the claimed successful result with the siblings' transaction ids. -/
theorem failed_transfer_aborts_whole_run :
    (let a₁ : Bytes := List.replicate 20 1;
     let a₂ : Bytes := List.replicate 20 2;
     let a₃ : Bytes := List.replicate 20 3;
     let s : Sys := ⟨⟨[⟨1, [1], [1], a₁, some [5], Status.proxied⟩,
         ⟨2, [2], [2], a₂, some [7], Status.proxied⟩,
         ⟨3, [3], [3], a₃, some [9], Status.proxied⟩], 4⟩,
       ⟨fun a => if a = a₁ then 5 else if a = a₂ then 7 else if a = a₃ then 9 else 0,
        fun _ => true, fun _ => false, fun a => a == a₂,
        fun a => if a = a₁ then 11 else 13, false⟩⟩;
     let cfg : Config := ⟨[4], [5], [6]⟩;
     ((executeRouting cfg s none).2.1.store.deposits.map Deposit.status) =
       [Status.routed, Status.proxied, Status.routed] ∧
     ((executeRouting cfg s none).2.1.store.deposits.map Deposit.balance) =
       [none, some [7], none] ∧
     (executeRouting cfg s none).1 = .error .txReverted) :=
  ⟨rfl, rfl, rfl⟩

/-- C2 (counterexample): a state with one already-proxied,
zero-balance deposit.  The first run succeeds and changes nothing;
the second run — no new deposits, no new funds — still submits an
on-chain `deployMultiple` transaction with an empty salt list,
because `deploy_proxies` never checks whether there is anything to
deploy before sending.  The claim that the second run "submits no
new on-chain transactions" is false. -/
theorem second_run_still_submits_deploy_tx :
    (let a₁ : Bytes := List.replicate 20 1;
     let s : Sys := ⟨⟨[⟨1, [1], [1], a₁, none, Status.proxied⟩], 2⟩,
       ⟨fun _ => 0, fun _ => true, fun _ => false, fun _ => false, fun _ => 7, false⟩⟩;
     let cfg : Config := ⟨[4], [5], [6]⟩;
     (executeRouting cfg s none).1 = .ok ⟨⟨0, 1, 0⟩, 0, []⟩ ∧
     (executeRouting cfg s none).2.1.store = s.store ∧
     (executeRouting cfg (executeRouting cfg s none).2.1 none).2.2.filter Eff.isTx =
       [Eff.deployTx []]) :=
  ⟨rfl, rfl, rfl⟩

/-! Section: Idempotence machinery for a second orchestration run -/

lemma eq_nil_of_isEmpty {l : List Deposit} (h : l.isEmpty = true) : l = [] := by
  cases l with
  | nil => rfl
  | cons a t => cases h

lemma markProxied_map_id (store : Store) (ids : List Nat) :
    (markProxied store ids).deposits.map Deposit.id = store.deposits.map Deposit.id := by
  simp only [markProxied, List.map_map]
  apply List.map_congr_left
  intro d _
  by_cases h : d.id ∈ ids <;> simp [h]

lemma sweepAll_map_id (cfg : Config) (ds : List Deposit) (store : Store) (c : Chain) :
    ((sweepAll cfg ds store c).2.1).deposits.map Deposit.id =
      store.deposits.map Deposit.id := by
  have h := sweepAll_rows cfg ds store c
  apply List.ext_getElem (by simp [h.1])
  intro j h₁ h₂
  simp only [List.getElem_map]
  have hj₁ : j < store.deposits.length := by simpa using h₂
  have hj₂ : j < ((sweepAll cfg ds store c).2.1).deposits.length := by simpa using h₁
  have := (h.2 j hj₁ hj₂).1
  simpa [List.get_eq_getElem] using this

/-- When every selected id belongs to an already-`proxied` row, the
batch `proxied` update is the identity on the store. -/
lemma markProxied_noop (store : Store) (ids : List Nat)
    (h : ∀ d ∈ store.deposits, d.id ∈ ids → d.status = .proxied) :
    markProxied store ids = store := by
  have hmap : store.deposits.map
      (fun d => if d.id ∈ ids then { d with status := Status.proxied } else d) =
      store.deposits := by
    conv_rhs => rw [← List.map_id store.deposits]
    apply List.map_congr_left
    intro d hd
    by_cases hid : d.id ∈ ids
    · have hs := h d hd hid
      rcases d with ⟨i, u, sa, a, b, st⟩
      simp only at hs
      subst hs
      simp [hid]
    · simp [hid]
  simp only [markProxied, hmap]

lemma filter_isTx_getBalance_map (l : List Deposit) :
    ((l.map fun d => Eff.getBalance d.address).filter Eff.isTx) = [] := by
  induction l with
  | nil => simp
  | cons a rest ih => simpa [Eff.isTx] using ih

/-- A run over a store whose eligible deposits are all `proxied`
with zero on-chain balances and working reads: it succeeds with an
empty result, leaves the store untouched, and submits no transfer —
only (when the selection is nonempty) the unconditional empty-batch
deployment transaction. -/
lemma run_allProxiedZero (cfg : Config) (s : Sys)
    (hall : ∀ d ∈ s.store.deposits, (d.status = .pending ∨ d.status = .proxied) →
      (d.status = .proxied ∧ s.chain.readFails d.address = false ∧
       s.chain.balance d.address = 0))
    (hdep : s.chain.deployReverts = false)
    (hnodup : (s.store.deposits.map Deposit.id).Nodup) :
    (∃ r, (executeRouting cfg s none).1 = .ok r ∧ r.txs = [] ∧ r.routed = 0) ∧
    (executeRouting cfg s none).2.1.store = s.store ∧
    ((executeRouting cfg s none).2.2.filter Eff.isTx = [] ∨
     (executeRouting cfg s none).2.2.filter Eff.isTx = [Eff.deployTx []]) := by
  by_cases hsel : (selectEligible s.store none).isEmpty = true
  · have hrun : executeRouting cfg s none = (.ok RouteResults.empty, s, []) := by
      simp [executeRouting, hsel]
    rw [hrun]
    exact ⟨⟨RouteResults.empty, rfl, rfl, rfl⟩, rfl, .inl rfl⟩
  · have hni : (selectEligible s.store none).isEmpty = false := by
      simpa using hsel
    have hselfacts : ∀ e ∈ selectEligible s.store none,
        e.status = .proxied ∧ s.chain.readFails e.address = false ∧
        s.chain.balance e.address = 0 := by
      intro e he
      obtain ⟨hmem, helig⟩ := selectEligible_subset s.store none e he
      exact hall e hmem helig
    have hsalts : ((selectEligible s.store none).filter
        fun e => !(e.status == .proxied)).map (·.salt) = [] := by
      rw [List.filter_eq_nil_iff.mpr]
      · rfl
      · intro e he
        simp [(hselfacts e he).1]
    have hdeploy := deployProxies_ok s.chain cfg [] hdep
    have hmark : markProxied s.store ((selectEligible s.store none).map (·.id)) =
        s.store := by
      apply markProxied_noop
      intro d hd hid
      obtain ⟨e, he, heid⟩ := List.mem_map.mp hid
      have : e = d := nodup_unique_id hnodup (selectEligible_subset _ _ e he).1 hd heid
      subst this
      exact (hselfacts e he).1
    have hzero : ∀ e ∈ selectEligible s.store none,
        (deployProxies s.chain cfg []).2.1.readFails e.address = false ∧
        (deployProxies s.chain cfg []).2.1.balance e.address = 0 := by
      intro e he
      rw [(deployProxies_chain_frame s.chain cfg []).2.1,
        (deployProxies_chain_frame s.chain cfg []).1]
      exact ⟨(hselfacts e he).2.1, (hselfacts e he).2.2⟩
    have hsweep := sweepAll_zero_noop cfg (selectEligible s.store none) s.store
      (deployProxies s.chain cfg []).2.1 hzero
    rw [hdeploy] at hsweep
    simp only [nonDeployedSalts_nil, predictProxyAddresses, List.map_nil] at hsweep
    simp only [executeRouting, hni, Bool.false_eq_true, if_false, hsalts, hdeploy]
    simp only [nonDeployedSalts_nil, predictProxyAddresses, List.map_nil]
    rw [hmark, hsweep]
    simp only [firstErr_all_ok, okTxs_all_zero]
    refine ⟨⟨⟨countByStatus s.store.deposits, 0, []⟩, ?_, ?_, ?_⟩, ?_, .inr ?_⟩
    · first | rfl | trivial
    · first | rfl | trivial
    · first | rfl | trivial
    · first | rfl | trivial
    · simp [List.filter_append, filter_isTx_getBalance_map, Eff.isTx]

/-- After a sweep phase that reported no error, every still-eligible
row of the resulting store is `proxied` and its proxy has a zero
balance and a working balance read on the resulting chain. -/
lemma run_core_post (cfg : Config) (store : Store) (c₁ : Chain)
    (hnodup : (store.deposits.map Deposit.id).Nodup)
    (hfe : firstErr (sweepAll cfg (selectEligible store none)
        (markProxied store ((selectEligible store none).map (·.id))) c₁).1 = none) :
    ∀ d ∈ (sweepAll cfg (selectEligible store none)
        (markProxied store ((selectEligible store none).map (·.id))) c₁).2.1.deposits,
      (d.status = .pending ∨ d.status = .proxied) →
      (d.status = .proxied ∧
       (sweepAll cfg (selectEligible store none)
         (markProxied store ((selectEligible store none).map (·.id))) c₁).2.2.1.readFails
           d.address = false ∧
       (sweepAll cfg (selectEligible store none)
         (markProxied store ((selectEligible store none).map (·.id))) c₁).2.2.1.balance
           d.address = 0) := by
  intro d hd helig
  obtain ⟨j, hj, hdj⟩ := List.mem_iff_getElem.mp hd
  have hlen₂ := sweepAll_length cfg (selectEligible store none)
    (markProxied store ((selectEligible store none).map (·.id))) c₁
  have hlen₁ := markProxied_length store ((selectEligible store none).map (·.id))
  have hj₁ : j < (markProxied store
      ((selectEligible store none).map (·.id))).deposits.length := by
    rw [hlen₁, ← hlen₁, ← hlen₂]; exact hj
  have hj₀ : j < store.deposits.length := by rw [← hlen₁]; exact hj₁
  have hdgetD : (sweepAll cfg (selectEligible store none)
      (markProxied store ((selectEligible store none).map (·.id))) c₁).2.1.deposits.getD
        j default = d := by
    rw [List.getD_eq_getElem _ _ hj]; exact hdj
  have homem : store.deposits.getD j default ∈ store.deposits := getD_mem hj₀
  have hrow₁ := markProxied_getD store ((selectEligible store none).map (·.id)) j hj₀
  have hswrel := (sweepAll_rows cfg (selectEligible store none)
    (markProxied store ((selectEligible store none).map (·.id))) c₁).2 j hj₁ hj
  have hswrel' : rowSweep ((markProxied store
      ((selectEligible store none).map (·.id))).deposits.getD j default) d := by
    rw [List.getD_eq_getElem _ _ hj₁]
    have : d = (sweepAll cfg (selectEligible store none)
        (markProxied store ((selectEligible store none).map (·.id))) c₁).2.1.deposits.get
          ⟨j, hj⟩ := by
      rw [List.get_eq_getElem]; exact hdj.symm
    rw [this]
    simpa [List.get_eq_getElem] using hswrel
  by_cases hoelig : (store.deposits.getD j default).status = .pending ∨
      (store.deposits.getD j default).status = .proxied
  · have hosel : store.deposits.getD j default ∈ selectEligible store none :=
      selectEligible_none_complete store _ homem hoelig
    have hoid : (store.deposits.getD j default).id ∈
        (selectEligible store none).map (·.id) :=
      List.mem_map.mpr ⟨_, hosel, rfl⟩
    have hrow₁' : (markProxied store
        ((selectEligible store none).map (·.id))).deposits.getD j default =
        { store.deposits.getD j default with status := .proxied } := by
      rw [hrow₁, if_pos hoid]
    have hswept := sweepAll_ok_swept cfg (selectEligible store none)
      (markProxied store ((selectEligible store none).map (·.id))) c₁ hfe _ hosel
    have hrf₂ : (sweepAll cfg (selectEligible store none)
        (markProxied store ((selectEligible store none).map (·.id))) c₁).2.2.1.readFails =
        c₁.readFails :=
      (sweepAll_chain_inv cfg _ _ c₁).1
    rw [hrow₁'] at hswrel'
    obtain ⟨_, _, _, haddr, hcase⟩ := hswrel'
    have haddr' : d.address = (store.deposits.getD j default).address := haddr
    rcases hcase with heq | ⟨hroutd, _⟩
    · rw [heq]
      refine ⟨rfl, ?_, ?_⟩
      · rw [hrf₂]; exact hswept.1
      · exact hswept.2
    · exact absurd hroutd (by rcases helig with h | h <;> rw [h] <;> exact Status.noConfusion)
  · have hnoid : (store.deposits.getD j default).id ∉
        (selectEligible store none).map (·.id) := by
      intro hid
      obtain ⟨e, he, heid⟩ := List.mem_map.mp hid
      have heo : e = store.deposits.getD j default :=
        nodup_unique_id hnodup (selectEligible_subset store none e he).1 homem heid
      exact hoelig (heo ▸ (selectEligible_subset store none e he).2)
    have hrow₁' : (markProxied store
        ((selectEligible store none).map (·.id))).deposits.getD j default =
        store.deposits.getD j default := by
      rw [hrow₁, if_neg hnoid]
    rw [hrow₁'] at hswrel'
    obtain ⟨_, _, _, _, hcase⟩ := hswrel'
    rcases hcase with heq | ⟨hroutd, _⟩
    · rw [heq] at helig
      exact absurd helig hoelig
    · exact absurd hroutd (by rcases helig with h | h <;> rw [h] <;> exact Status.noConfusion)

/-- State shape after a successful unscoped run: either the selection
was empty and nothing happened, or all still-eligible rows are
`proxied` with zero balances and working reads, ids are unchanged,
and the deployment-revert oracle is known false. -/
lemma executeRouting_ok_state (cfg : Config) (s : Sys) (r : RouteResults)
    (hnodup : (s.store.deposits.map Deposit.id).Nodup)
    (hok : (executeRouting cfg s none).1 = .ok r) :
    ((executeRouting cfg s none).2.1 = s ∧ selectEligible s.store none = []) ∨
    ((executeRouting cfg s none).2.1.chain.deployReverts = false ∧
     ((executeRouting cfg s none).2.1.store.deposits.map Deposit.id) =
       (s.store.deposits.map Deposit.id) ∧
     ∀ d ∈ (executeRouting cfg s none).2.1.store.deposits,
       (d.status = .pending ∨ d.status = .proxied) →
       (d.status = .proxied ∧
        (executeRouting cfg s none).2.1.chain.readFails d.address = false ∧
        (executeRouting cfg s none).2.1.chain.balance d.address = 0)) := by
  by_cases hsel : (selectEligible s.store none).isEmpty = true
  · left
    have hrun : executeRouting cfg s none = (.ok RouteResults.empty, s, []) := by
      simp [executeRouting, hsel]
    rw [hrun]
    exact ⟨rfl, eq_nil_of_isEmpty hsel⟩
  · right
    have hni : (selectEligible s.store none).isEmpty = false := by simpa using hsel
    simp only [executeRouting, hni, Bool.false_eq_true, if_false] at hok ⊢
    cases hdp : (deployProxies s.chain cfg
        (((selectEligible s.store none).filter fun e => !(e.status == .proxied)).map
          (·.salt))).1 with
    | error e => rw [hdp] at hok; cases hok
    | ok addrs =>
      rw [hdp] at hok
      simp only [hdp]
      have hdr : s.chain.deployReverts = false := by
        by_cases h : s.chain.deployReverts
        · rw [deployProxies_revert s.chain cfg _ h] at hdp
          cases hdp
        · simpa using h
      have hdr₁ : (deployProxies s.chain cfg
          (((selectEligible s.store none).filter fun e => !(e.status == .proxied)).map
            (·.salt))).2.1.deployReverts = false := by
        rw [(deployProxies_chain_frame _ _ _).2.2.2.2]; exact hdr
      cases hfe : firstErr (sweepAll cfg (selectEligible s.store none)
          (markProxied s.store ((selectEligible s.store none).map (·.id)))
          (deployProxies s.chain cfg
            (((selectEligible s.store none).filter fun e => !(e.status == .proxied)).map
              (·.salt))).2.1).1 with
      | some e => rw [hfe] at hok; cases hok
      | none =>
        simp only [hfe]
        refine ⟨?_, ?_, ?_⟩
        · rw [(sweepAll_chain_inv cfg _ _ _).2.2.2.2.1]
          exact hdr₁
        · rw [sweepAll_map_id, markProxied_map_id]
        · exact run_core_post cfg s.store _ hnodup hfe

/-- C2 (amended): after a successful unscoped run, a second run with
no new deposits and no new funds changes no deposit's status or
balance (the store is untouched), leaves the status counts
unchanged, returns a successful empty result, and submits no
fund-transfer transaction — but it does NOT submit zero on-chain
transactions: whenever its selection is nonempty it still submits
one `deployMultiple` deployment transaction carrying an empty salt
list, because the deployment step is never skipped. -/
theorem second_run_is_noop_except_empty_deploy (cfg : Config) (s : Sys)
    (r₁ : RouteResults) (hnodup : (s.store.deposits.map Deposit.id).Nodup)
    (h1 : (executeRouting cfg s none).1 = .ok r₁) :
    (∃ r₂, (executeRouting cfg (executeRouting cfg s none).2.1 none).1 = .ok r₂ ∧
       r₂.txs = [] ∧ r₂.routed = 0) ∧
    (executeRouting cfg (executeRouting cfg s none).2.1 none).2.1.store =
      (executeRouting cfg s none).2.1.store ∧
    countByStatus
        (executeRouting cfg (executeRouting cfg s none).2.1 none).2.1.store.deposits =
      countByStatus (executeRouting cfg s none).2.1.store.deposits ∧
    ((executeRouting cfg (executeRouting cfg s none).2.1 none).2.2.filter Eff.isTx = [] ∨
     (executeRouting cfg (executeRouting cfg s none).2.1 none).2.2.filter Eff.isTx =
       [Eff.deployTx []]) := by
  rcases executeRouting_ok_state cfg s r₁ hnodup h1 with ⟨heq, hemp⟩ | ⟨hdr, hids, hall⟩
  · rw [heq]
    have hrun : executeRouting cfg s none = (.ok RouteResults.empty, s, []) := by
      simp [executeRouting, hemp]
    rw [hrun]
    exact ⟨⟨RouteResults.empty, rfl, rfl, rfl⟩, rfl, rfl, .inl rfl⟩
  · have hnodup₁ : ((executeRouting cfg s none).2.1.store.deposits.map
        Deposit.id).Nodup := by
      rw [hids]; exact hnodup
    have hcore := run_allProxiedZero cfg (executeRouting cfg s none).2.1 hall hdr hnodup₁
    exact ⟨hcore.1, hcore.2.1, by rw [hcore.2.1], hcore.2.2⟩

/-- C2 witness: one proxied zero-balance deposit; the first run
succeeds, and the second run is the amended no-op (store untouched,
counts unchanged, empty success) whose only transaction is the
empty-batch deployment. -/
theorem second_run_is_noop_except_empty_deploy_witness :
    (let s : Sys := ⟨⟨[⟨1, [1], [1], List.replicate 20 1, none, Status.proxied⟩], 2⟩,
       ⟨fun _ => 0, fun _ => true, fun _ => false, fun _ => false, fun _ => 7, false⟩⟩;
     let cfg : Config := ⟨[4], [5], [6]⟩;
     ((s.store.deposits.map Deposit.id).Nodup ∧
      (executeRouting cfg s none).1 = .ok ⟨⟨0, 1, 0⟩, 0, []⟩) ∧
     ((∃ r₂, (executeRouting cfg (executeRouting cfg s none).2.1 none).1 = .ok r₂ ∧
        r₂.txs = [] ∧ r₂.routed = 0) ∧
      (executeRouting cfg (executeRouting cfg s none).2.1 none).2.1.store =
        (executeRouting cfg s none).2.1.store ∧
      countByStatus
          (executeRouting cfg (executeRouting cfg s none).2.1 none).2.1.store.deposits =
        countByStatus (executeRouting cfg s none).2.1.store.deposits ∧
      ((executeRouting cfg (executeRouting cfg s none).2.1 none).2.2.filter Eff.isTx = [] ∨
       (executeRouting cfg (executeRouting cfg s none).2.1 none).2.2.filter Eff.isTx =
         [Eff.deployTx []]))) :=
  ⟨⟨by decide, rfl⟩, second_run_is_noop_except_empty_deploy _ _ _ (by decide) rfl⟩
